import Mathlib

/-!
Verification of the core of the `lineu` incident-triage service against its
natural-language specification.

The development shallowly embeds the TypeScript sources:
  * `src/lib/fingerprint.ts`  — payload canonicalization and digesting
  * `src/services/claude.ts`  — stream parsing, result extraction, timeout protocol
  * `src/db.ts`               — job store transactions over the two tables
  * `server.ts` / `worker.ts` — the ingestion path and worker-loop callers

JSON payloads are modelled as finite trees (`Json`).  JavaScript objects are
association lists that preserve insertion order; JS objects cannot contain
duplicate keys, which is captured by the well-formedness predicate `WFJson`
where key uniqueness matters.  Numeric literals are modelled at integer
precision (no claim exercises fractional numbers).  Machine-level concerns
(reference identity for the cycle guard, floating point) are outside the
embedding; all payloads in scope are acyclic `JSON.parse` images, on which the
`WeakSet` cycle guard of `removeDynamicFields` is semantically inert.
-/

/-- JSON value tree: the payloads, stream events and analysis results the
service manipulates. Object fields keep JS insertion order. -/
inductive Json where
  | null : Json
  | bool (b : Bool) : Json
  | num (n : Int) : Json
  | str (s : String) : Json
  | arr (items : List Json) : Json
  | obj (fields : List (String × Json)) : Json

/-- Field access `o[k]` on a JSON value: `none` models JS `undefined`
(non-objects have no string-keyed fields of interest here). -/
def jGet (j : Json) (k : String) : Option Json :=
  match j with
  | .obj fields => fields.lookup k
  | _ => none

/-- JS truthiness of a JSON value: `undefined`(handled by callers), `null`,
`false`, `0` and the empty string are falsy; objects and arrays are truthy. -/
def jsTruthy : Json → Bool
  | .null => false
  | .bool b => b
  | .num n => !(n == 0)
  | .str s => !(s == "")
  | .arr _ => true
  | .obj _ => true

/-- Lexicographic comparison of character lists by code point, the order JS
`Array.prototype.sort()` applies to (ASCII) key strings. -/
def charListLe : List Char → List Char → Bool
  | [], _ => true
  | _ :: _, [] => false
  | a :: as, b :: bs =>
    if a.toNat < b.toNat then true
    else if b.toNat < a.toNat then false
    else charListLe as bs

/-- String order used when sorting object keys. -/
def strLe (a b : String) : Bool := charListLe a.data b.data

/-- The key order as a decidable relation, for `List.insertionSort`. -/
def strLeR (a b : String) : Prop := strLe a b = true

instance : DecidableRel strLeR := fun a b => by unfold strLeR; infer_instance

/-- Whitespace recognized by JS `String.prototype.trim` (ASCII portion). -/
def jsWhitespace (c : Char) : Bool :=
  c = ' ' ∨ c = '\t' ∨ c = '\n' ∨ c = '\r' ∨ c.toNat = 12 ∨ c.toNat = 11

/-- JS `s.trim()` over the character list of `s`. -/
def jsTrim (s : String) : String :=
  String.mk (((s.data.dropWhile jsWhitespace).reverse.dropWhile jsWhitespace).reverse)

/-- JS `s.split(sep)` for a one-character separator, over character lists. -/
def splitOnChar (sep : Char) : List Char → List (List Char)
  | [] => [[]]
  | c :: cs =>
    let rest := splitOnChar sep cs
    if c = sep then [] :: rest
    else
      match rest with
      | r :: rs => (c :: r) :: rs
      | [] => [[c]]

/-- JS `chunk.split(newline)` on strings. -/
def jsSplitNl (s : String) : List String :=
  (splitOnChar '\n' s.data).map String.mk

/-- Volatile field names stripped before hashing
(`DYNAMIC_FIELDS` in `src/lib/fingerprint.ts`). -/
def DYNAMIC_FIELDS : List String :=
  ["timestamp", "occurredAt", "createdAt", "updatedAt", "time", "date",
   "requestId", "traceId", "spanId", "correlationId",
   "id", "uuid", "eventId", "event_id", "issueId"]

mutual
/-- The recursion of `removeDynamicFields` in `src/lib/fingerprint.ts`: drop
every volatile-named field at every nesting depth, descending through arrays.
The `seen` WeakSet of the source detects reference cycles; on the acyclic
trees of this model it never fires and is omitted. -/
def removeDynamicFields : Json → Json
  | .obj fields => .obj (removeDynamicFieldsList fields)
  | .arr items => .arr (removeDynamicFieldsArr items)
  | j => j

/-- Array branch of `removeDynamicFields` (`obj.map(item => ...)`). -/
def removeDynamicFieldsArr : List Json → List Json
  | [] => []
  | x :: xs => removeDynamicFields x :: removeDynamicFieldsArr xs

/-- Object branch of `removeDynamicFields`: keep a field iff its key is not
in `DYNAMIC_FIELDS`, cleaning the kept value recursively. -/
def removeDynamicFieldsList : List (String × Json) → List (String × Json)
  | [] => []
  | (k, v) :: rest =>
    if k ∈ DYNAMIC_FIELDS then removeDynamicFieldsList rest
    else (k, removeDynamicFields v) :: removeDynamicFieldsList rest
end

/-- Rebuild an object from a (sorted) key list, looking each key up in the
field list — the `sorted[key] = ...` loop of `sortObjectKeys`.  The `.getD
.null` default is unreachable: every sorted key comes from the field list. -/
def rebuildSorted (keys : List String) (fields : List (String × Json)) : List (String × Json) :=
  keys.map (fun k => (k, (fields.lookup k).getD .null))

mutual
/-- The recursion of `sortObjectKeys` in `src/lib/fingerprint.ts`: rebuild each
object from its key list sorted ascending (`Object.keys(obj).sort()`), sorting
values recursively.  The source sorts the value found by each lookup
(`sorted[key] = sortObjectKeys(obj[key])`); since sorting a value leaves keys
untouched, that equals looking the key up in the value-sorted field list, which
is the structurally recursive form used here. -/
def sortObjectKeys : Json → Json
  | .obj fields =>
    .obj (rebuildSorted ((fields.map Prod.fst).insertionSort strLeR) (sortObjectKeysFields fields))
  | .arr items => .arr (sortObjectKeysArr items)
  | j => j

/-- Array branch of `sortObjectKeys`. -/
def sortObjectKeysArr : List Json → List Json
  | [] => []
  | x :: xs => sortObjectKeys x :: sortObjectKeysArr xs

/-- Recursively sort the value of every field, keeping keys and order. -/
def sortObjectKeysFields : List (String × Json) → List (String × Json)
  | [] => []
  | (k, v) :: rest => (k, sortObjectKeys v) :: sortObjectKeysFields rest
end

/-- JSON string escaping as performed by `JSON.stringify` on one character. -/
def escapeChar (c : Char) : List Char :=
  if c = '"' then ['\\', '"']
  else if c = '\\' then ['\\', '\\']
  else if c.toNat = 8 then ['\\', 'b']
  else if c.toNat = 9 then ['\\', 't']
  else if c.toNat = 10 then ['\\', 'n']
  else if c.toNat = 12 then ['\\', 'f']
  else if c.toNat = 13 then ['\\', 'r']
  else if c.toNat < 32 then
    ['\\', 'u', '0', '0',
     (if c.toNat / 16 < 10 then Char.ofNat (48 + c.toNat / 16) else Char.ofNat (87 + c.toNat / 16)),
     (if c.toNat % 16 < 10 then Char.ofNat (48 + c.toNat % 16) else Char.ofNat (87 + c.toNat % 16))]
  else [c]

/-- Quote and escape a string literal as `JSON.stringify` does. -/
def stringifyString (s : String) : List Char :=
  '"' :: s.data.flatMap escapeChar ++ ['"']

mutual
/-- Character-level `JSON.stringify` of a JSON tree (no spacing, keys in the
order they appear — `generateFingerprint` sorts them beforehand). -/
def stringifyJson : Json → List Char
  | .null => "null".data
  | .bool b => if b then "true".data else "false".data
  | .num n => (toString n).data
  | .str s => stringifyString s
  | .arr items => '[' :: stringifyArr items ++ [']']
  | .obj fields => Char.ofNat 123 :: stringifyFields fields ++ [Char.ofNat 125]

/-- Comma-joined elements of an array. -/
def stringifyArr : List Json → List Char
  | [] => []
  | [x] => stringifyJson x
  | x :: xs => stringifyJson x ++ ',' :: stringifyArr xs

/-- Comma-joined `"key":value` members of an object. -/
def stringifyFields : List (String × Json) → List Char
  | [] => []
  | [(k, v)] => stringifyString k ++ ':' :: stringifyJson v
  | (k, v) :: rest => stringifyString k ++ ':' :: stringifyJson v ++ ',' :: stringifyFields rest
end

example : String.mk (stringifyJson (.obj [("a", .num 1), ("b", .str "x")]))
    = "\x7b\"a\":1,\"b\":\"x\"\x7d" := rfl

example : jsTrim "  x " = "x" := rfl

example : jsSplitNl "a\nb\n" = ["a", "b", ""] := rfl

/-! SHA-256 (FIPS 180-4), the hash behind `crypto.createHash('sha256')`.
Machine words are `Nat` reduced modulo `2^32` explicitly. -/

/-- UTF-8 encoding of one character, as `hash.update(string)` applies. -/
def utf8Encode (c : Char) : List Nat :=
  let n := c.toNat
  if n < 128 then [n]
  else if n < 2048 then [192 + n / 64, 128 + n % 64]
  else if n < 65536 then [224 + n / 4096, 128 + n / 64 % 64, 128 + n % 64]
  else [240 + n / 262144, 128 + n / 4096 % 64, 128 + n / 64 % 64, 128 + n % 64]

/-- UTF-8 byte sequence of a string. -/
def utf8Bytes (s : String) : List Nat := s.data.flatMap utf8Encode

/-- Word size modulus for 32-bit arithmetic. -/
def w32 : Nat := 4294967296

/-- Right rotation of a 32-bit word. -/
def rotr (n x : Nat) : Nat := ((x >>> n) ||| (x <<< (32 - n))) % w32

/-- SHA-256 small sigma 0. -/
def ssig0 (x : Nat) : Nat := (rotr 7 x) ^^^ (rotr 18 x) ^^^ (x >>> 3)

/-- SHA-256 small sigma 1. -/
def ssig1 (x : Nat) : Nat := (rotr 17 x) ^^^ (rotr 19 x) ^^^ (x >>> 10)

/-- SHA-256 big sigma 0. -/
def bsig0 (x : Nat) : Nat := (rotr 2 x) ^^^ (rotr 13 x) ^^^ (rotr 22 x)

/-- SHA-256 big sigma 1. -/
def bsig1 (x : Nat) : Nat := (rotr 6 x) ^^^ (rotr 11 x) ^^^ (rotr 25 x)

/-- SHA-256 choice function. -/
def chF (x y z : Nat) : Nat := (x &&& y) ^^^ ((w32 - 1 - x) &&& z)

/-- SHA-256 majority function. -/
def majF (x y z : Nat) : Nat := (x &&& y) ^^^ (x &&& z) ^^^ (y &&& z)

/-- SHA-256 round constants. -/
def K256 : List Nat :=
  [1116352408, 1899447441, 3049323471, 3921009573, 961987163, 1508970993,
   2453635748, 2870763221, 3624381080, 310598401, 607225278, 1426881987,
   1925078388, 2162078206, 2614888103, 3248222580, 3835390401, 4022224774,
   264347078, 604807628, 770255983, 1249150122, 1555081692, 1996064986,
   2554220882, 2821834349, 2952996808, 3210313671, 3336571891, 3584528711,
   113926993, 338241895, 666307205, 773529912, 1294757372, 1396182291,
   1695183700, 1986661051, 2177026350, 2456956037, 2730485921, 2820302411,
   3259730800, 3345764771, 3516065817, 3600352804, 4094571909, 275423344,
   430227734, 506948616, 659060556, 883997877, 958139571, 1322822218,
   1537002063, 1747873779, 1955562222, 2024104815, 2227730452, 2361852424,
   2428436474, 2756734187, 3204031479, 3329325298]

/-- Hash state: eight 32-bit working variables. -/
structure Sha256State where
  a : Nat
  b : Nat
  c : Nat
  d : Nat
  e : Nat
  f : Nat
  g : Nat
  h : Nat
deriving DecidableEq

/-- Initial hash value H(0). -/
def sha256Init : Sha256State :=
  ⟨1779033703, 3144134277, 1013904242, 2773480762,
   1359893119, 2600822924, 528734635, 1541459225⟩

/-- One compression round. -/
def sha256Round (st : Sha256State) (kw : Nat × Nat) : Sha256State :=
  let t1 := (st.h + bsig1 st.e + chF st.e st.f st.g + kw.1 + kw.2) % w32
  let t2 := (bsig0 st.a + majF st.a st.b st.c) % w32
  ⟨(t1 + t2) % w32, st.a, st.b, st.c, (st.d + t1) % w32, st.e, st.f, st.g⟩

/-- Big-endian 32-bit word from four bytes. -/
def word32 (b0 b1 b2 b3 : Nat) : Nat := ((b0 * 256 + b1) * 256 + b2) * 256 + b3

/-- The first sixteen schedule words of one 64-byte block. -/
def blockWords : List Nat → List Nat
  | b0 :: b1 :: b2 :: b3 :: rest => word32 b0 b1 b2 b3 :: blockWords rest
  | _ => []

/-- Extend the message schedule to 64 words (runs 48 extension steps). -/
def extendSchedule : Nat → List Nat → List Nat
  | 0, acc => acc
  | n + 1, acc =>
    match acc.reverse with
    | _ :: wt2 :: _ :: _ :: _ :: _ :: wt7 :: _ :: _ :: _ :: _ :: _ :: _ :: _ :: wt15 :: wt16 :: _ =>
      extendSchedule n (acc ++ [(ssig1 wt2 + wt7 + ssig0 wt15 + wt16) % w32])
    | _ => acc

/-- Compress one 64-byte block into the running state. -/
def sha256Compress (st : Sha256State) (block : List Nat) : Sha256State :=
  let ws := extendSchedule 48 (blockWords block)
  let r := (K256.zip ws).foldl sha256Round st
  ⟨(st.a + r.a) % w32, (st.b + r.b) % w32, (st.c + r.c) % w32, (st.d + r.d) % w32,
   (st.e + r.e) % w32, (st.f + r.f) % w32, (st.g + r.g) % w32, (st.h + r.h) % w32⟩

/-- Merkle–Damgård padding: append `0x80`, zeros, and the 64-bit bit length. -/
def sha256Pad (msg : List Nat) : List Nat :=
  let len := msg.length
  let zeros := (64 + 56 - (len + 1) % 64) % 64
  let bits := len * 8
  msg ++ [128] ++ List.replicate zeros 0 ++
    [bits / 2 ^ 56 % 256, bits / 2 ^ 48 % 256, bits / 2 ^ 40 % 256, bits / 2 ^ 32 % 256,
     bits / 2 ^ 24 % 256, bits / 2 ^ 16 % 256, bits / 2 ^ 8 % 256, bits % 256]

/-- Fold the compression over successive 64-byte blocks (fuel-driven so the
kernel can evaluate it; the wrapper supplies enough fuel for every block). -/
def sha256Blocks : Nat → Sha256State → List Nat → Sha256State
  | 0, st, _ => st
  | _ + 1, st, [] => st
  | n + 1, st, bytes => sha256Blocks n (sha256Compress st (bytes.take 64)) (bytes.drop 64)

/-- Digest of a byte sequence as eight 32-bit words. -/
def sha256Words (msg : List Nat) : Sha256State :=
  let padded := sha256Pad msg
  sha256Blocks (padded.length / 64 + 1) sha256Init padded

/-- Lowercase hexadecimal digit. -/
def hexDigit (n : Nat) : Char :=
  if n < 10 then Char.ofNat (48 + n) else Char.ofNat (87 + n)

/-- Eight hexadecimal characters of one 32-bit word. -/
def wordHex (w : Nat) : List Char :=
  [hexDigit (w / 2 ^ 28 % 16), hexDigit (w / 2 ^ 24 % 16), hexDigit (w / 2 ^ 20 % 16),
   hexDigit (w / 2 ^ 16 % 16), hexDigit (w / 2 ^ 12 % 16), hexDigit (w / 2 ^ 8 % 16),
   hexDigit (w / 2 ^ 4 % 16), hexDigit (w % 16)]

/-- The 64 hex characters of a digest (`.digest('hex')`). -/
def sha256HexChars (msg : List Nat) : List Char :=
  let st := sha256Words msg
  wordHex st.a ++ wordHex st.b ++ wordHex st.c ++ wordHex st.d ++
    wordHex st.e ++ wordHex st.f ++ wordHex st.g ++ wordHex st.h

/-- Validation of the SHA-256 embedding on the FIPS 180-4 test vector. -/
theorem sha256_abc_vector :
    String.mk (sha256HexChars (utf8Bytes "abc"))
      = "ba7816bf8f01cfea414140de5dae2223b00361a396177a9cb410ff61f20015ad" := by decide

/-- Validation on the empty message. -/
theorem sha256_empty_vector :
    String.mk (sha256HexChars (utf8Bytes ""))
      = "e3b0c44298fc1c149afbf4c8996fb92427ae41e4649b934ca495991b7852b855" := by decide

/-- The canonical serialization hashed by `generateFingerprint`:
`JSON.stringify(sortObjectKeys(removeDynamicFields(payload)))`. -/
def canonicalJson (payload : Json) : String :=
  String.mk (stringifyJson (sortObjectKeys (removeDynamicFields payload)))

/-- The fingerprint generator of `src/lib/fingerprint.ts`: SHA-256 of the
canonical serialization, hex-encoded, truncated to a 32-character prefix. -/
def generateFingerprint (payload : Json) : String :=
  String.mk ((sha256HexChars (utf8Bytes (canonicalJson payload))).take 32)

/-- Validity screen for a caller-supplied fingerprint
(`isValidExternalFingerprint` in `src/lib/fingerprint.ts`): `none` models JS
`undefined`; the `value === 0` and non-string checks collapse onto the
non-`str` constructors. -/
def isValidExternalFingerprint : Option Json → Bool
  | none => false
  | some .null => false
  | some (.num 0) => false
  | some (.str s) => !(jsTrim s == "")
  | some _ => false

/-- The fingerprint the ingestion path uses (`createServer` webhook handler):
the caller-supplied `payload.fingerprint` when it passes the validity screen,
else the computed digest of the payload. -/
def resolvedFingerprint (payload : List (String × Json)) : String :=
  let ext := payload.lookup "fingerprint"
  if isValidExternalFingerprint ext then
    match ext with
    | some (.str s) => s
    | _ => ""
  else generateFingerprint (.obj payload)

/-- Spec scenario §8: identical payloads up to `timestamp` values collide. -/
example :
    canonicalJson (.obj [("message", .str "X"), ("timestamp", .str "t1")])
      = canonicalJson (.obj [("message", .str "X"), ("timestamp", .str "t2")]) := rfl

example :
    generateFingerprint (.obj [("message", .str "X"), ("timestamp", .str "t1")])
      ≠ generateFingerprint (.obj [("message", .str "Y"), ("timestamp", .str "t1")]) := by decide

/-! Order-theoretic facts about the key order, needed to reason about
`Object.keys(obj).sort()`. -/

/-- Head-unfolding of the lexicographic order. -/
theorem charListLe_cons (a b : Char) (as bs : List Char) :
    charListLe (a :: as) (b :: bs) = true ↔
      a.toNat < b.toNat ∨ (a.toNat = b.toNat ∧ charListLe as bs = true) := by
  simp only [charListLe]
  split_ifs with h1 h2
  · simp [h1]
  · simp only [Bool.false_eq_true, false_iff]
    rintro (h | ⟨h, _⟩) <;> omega
  · constructor
    · intro h; right; exact ⟨by omega, h⟩
    · rintro (h | ⟨_, h⟩)
      · omega
      · exact h

/-- The key order is total. -/
theorem charListLe_total : ∀ a b : List Char, charListLe a b = true ∨ charListLe b a = true := by
  intro a
  induction a with
  | nil => intro b; left; rfl
  | cons c cs ih =>
    intro b
    cases b with
    | nil => right; rfl
    | cons d ds =>
      rcases Nat.lt_trichotomy c.toNat d.toNat with h | h | h
      · left; rw [charListLe_cons]; exact Or.inl h
      · rcases ih ds with h2 | h2
        · left; rw [charListLe_cons]; exact Or.inr ⟨h, h2⟩
        · right; rw [charListLe_cons]; exact Or.inr ⟨h.symm, h2⟩
      · right; rw [charListLe_cons]; exact Or.inl h

/-- The key order is transitive. -/
theorem charListLe_trans :
    ∀ a b c : List Char, charListLe a b = true → charListLe b c = true →
      charListLe a c = true := by
  intro a
  induction a with
  | nil => intro b c _ _; rfl
  | cons x xs ih =>
    intro b c hab hbc
    cases b with
    | nil => simp [charListLe] at hab
    | cons y ys =>
      cases c with
      | nil => simp [charListLe] at hbc
      | cons z zs =>
        rw [charListLe_cons] at hab hbc ⊢
        rcases hab with h1 | ⟨h1, h1t⟩ <;> rcases hbc with h2 | ⟨h2, h2t⟩
        · exact Or.inl (by omega)
        · exact Or.inl (by omega)
        · exact Or.inl (by omega)
        · exact Or.inr ⟨by omega, ih ys zs h1t h2t⟩

/-- The key order is antisymmetric. -/
theorem charListLe_antisymm :
    ∀ a b : List Char, charListLe a b = true → charListLe b a = true → a = b := by
  intro a
  induction a with
  | nil =>
    intro b _ hba
    cases b with
    | nil => rfl
    | cons y ys => simp [charListLe] at hba
  | cons x xs ih =>
    intro b hab hba
    cases b with
    | nil => simp [charListLe] at hab
    | cons y ys =>
      rw [charListLe_cons] at hab hba
      have hxy : x.toNat = y.toNat := by omega
      have hx : x = y := by
        have h1 := Char.ofNat_toNat x
        have h2 := Char.ofNat_toNat y
        rw [hxy] at h1
        rw [← h1]
        exact h2
      rcases hab with h | ⟨_, ht⟩
      · omega
      · rcases hba with h | ⟨_, ht'⟩
        · omega
        · rw [hx, ih ys ht ht']

instance : IsTotal String strLeR :=
  ⟨fun a b => charListLe_total a.data b.data⟩

instance : IsTrans String strLeR :=
  ⟨fun a b c => charListLe_trans a.data b.data c.data⟩

instance : IsAntisymm String strLeR :=
  ⟨fun a b hab hba => by
    cases a with
    | mk da =>
      cases b with
      | mk db => exact congrArg String.mk (charListLe_antisymm da db hab hba)⟩

/-! Association-list lemmas about `List.lookup` over string keys. -/

/-- A successful lookup exhibits a member pair. -/
theorem lookup_mem_pair {k : String} {v : Json} :
    ∀ {l : List (String × Json)}, l.lookup k = some v → (k, v) ∈ l := by
  intro l
  induction l with
  | nil => intro h; simp [List.lookup] at h
  | cons p rest ih =>
    intro h
    cases p with
    | mk k' v' =>
      cases hk : k == k' with
      | true =>
        simp only [List.lookup, hk] at h
        injection h with h
        have hke : k = k' := by simpa using hk
        subst hke
        subst h
        exact List.mem_cons_self _ _
      | false =>
        simp only [List.lookup, hk] at h
        exact List.mem_cons_of_mem _ (ih h)

/-- A key occurring in the key list has a successful lookup. -/
theorem lookup_isSome_of_mem_keys {k : String} :
    ∀ {l : List (String × Json)}, k ∈ l.map Prod.fst → ∃ v, l.lookup k = some v := by
  intro l
  induction l with
  | nil => intro h; simp at h
  | cons p rest ih =>
    intro h
    cases p with
    | mk k' v' =>
      cases hk : k == k' with
      | true => exact ⟨v', by simp only [List.lookup, hk]⟩
      | false =>
        have hne : k ≠ k' := by simpa using hk
        have hmem : k ∈ rest.map Prod.fst := by
          rcases List.mem_map.mp h with ⟨q, hq, hqk⟩
          rcases List.mem_cons.mp hq with h1 | h1
          · exact absurd (by rw [h1] at hqk; exact hqk.symm) hne
          · exact List.mem_map.mpr ⟨q, h1, hqk⟩
        rcases ih hmem with ⟨v, hv⟩
        exact ⟨v, by simp only [List.lookup, hk, hv]⟩

/-- Strong induction on the size of a JSON tree. -/
theorem json_strong_ind (P : Json → Prop)
    (ih : ∀ j, (∀ k, sizeOf k < sizeOf j → P k) → P j) : ∀ j, P j := by
  have H : ∀ n j, sizeOf j < n → P j := by
    intro n
    induction n with
    | zero => intro j h; omega
    | succ n ihn => intro j _; exact ih j (fun k hk => ihn k (by omega))
  intro j
  exact H (sizeOf j + 1) j (by omega)

/-- A value's size is below its enclosing object's size. -/
theorem sizeOf_val_lt_obj {k : String} {v : Json} {fs : List (String × Json)}
    (h : (k, v) ∈ fs) : sizeOf v < sizeOf (Json.obj fs) := by
  have h1 := List.sizeOf_lt_of_mem h
  have h2 : sizeOf v < sizeOf (k, v) := by simp
  simp only [Json.obj.sizeOf_spec]
  omega

/-- An element's size is below its enclosing array's size. -/
theorem sizeOf_elem_lt_arr {v : Json} {xs : List Json}
    (h : v ∈ xs) : sizeOf v < sizeOf (Json.arr xs) := by
  have h1 := List.sizeOf_lt_of_mem h
  simp only [Json.arr.sizeOf_spec]
  omega

/-- Unfolded form of the array branch of `removeDynamicFields`. -/
theorem removeDynamicFieldsArr_eq_map :
    ∀ xs : List Json, removeDynamicFieldsArr xs = xs.map removeDynamicFields := by
  intro xs
  induction xs with
  | nil => rfl
  | cons x xs ih => simp [removeDynamicFieldsArr, ih]

/-- Unfolded form of the array branch of `sortObjectKeys`. -/
theorem sortObjectKeysArr_eq_map :
    ∀ xs : List Json, sortObjectKeysArr xs = xs.map sortObjectKeys := by
  intro xs
  induction xs with
  | nil => rfl
  | cons x xs ih => simp [sortObjectKeysArr, ih]

/-- Dropping volatile fields filters the key list. -/
theorem removeDynamicFieldsList_keys :
    ∀ fs : List (String × Json),
      (removeDynamicFieldsList fs).map Prod.fst
        = (fs.map Prod.fst).filter (fun k => !(decide (k ∈ DYNAMIC_FIELDS))) := by
  intro fs
  induction fs with
  | nil => rfl
  | cons p rest ih =>
    cases p with
    | mk k v =>
      by_cases hk : k ∈ DYNAMIC_FIELDS
      · simp [removeDynamicFieldsList, hk, ih]
      · simp [removeDynamicFieldsList, hk, ih]

/-- Lookup of a non-volatile key commutes with dropping volatile fields. -/
theorem removeDynamicFieldsList_lookup {k : String} (hk : k ∉ DYNAMIC_FIELDS) :
    ∀ fs : List (String × Json),
      (removeDynamicFieldsList fs).lookup k = (fs.lookup k).map removeDynamicFields := by
  intro fs
  induction fs with
  | nil => rfl
  | cons p rest ih =>
    cases p with
    | mk k' v =>
      by_cases hk' : k' ∈ DYNAMIC_FIELDS
      · have hne : (k == k') = false := by
          simp only [beq_eq_false_iff_ne, ne_eq]
          intro h; exact hk (h ▸ hk')
        simp [removeDynamicFieldsList, hk', List.lookup, hne, ih]
      · cases hkk : k == k' with
        | true => simp [removeDynamicFieldsList, hk', List.lookup, hkk]
        | false => simp [removeDynamicFieldsList, hk', List.lookup, hkk, ih]

/-- Lookup commutes with recursively sorting field values. -/
theorem sortObjectKeysFields_lookup (k : String) :
    ∀ fs : List (String × Json),
      (sortObjectKeysFields fs).lookup k = (fs.lookup k).map sortObjectKeys := by
  intro fs
  induction fs with
  | nil => rfl
  | cons p rest ih =>
    cases p with
    | mk k' v =>
      cases hkk : k == k' with
      | true => simp [sortObjectKeysFields, List.lookup, hkk]
      | false => simp [sortObjectKeysFields, List.lookup, hkk, ih]

/-- Two payloads are related when they differ only in the values stored under
volatile field names (at any depth) or in the order of object keys.  This is
the spec's side of the determinism invariant, stated structurally and
independently of the hashing pipeline. -/
inductive FpEquiv : Json → Json → Prop where
  | null : FpEquiv .null .null
  | bool (b : Bool) : FpEquiv (.bool b) (.bool b)
  | num (n : Int) : FpEquiv (.num n) (.num n)
  | str (s : String) : FpEquiv (.str s) (.str s)
  | arr (xs ys : List Json) (hlen : xs.length = ys.length)
      (hx : ∀ i (h1 : i < xs.length) (h2 : i < ys.length),
        FpEquiv (xs.get ⟨i, h1⟩) (ys.get ⟨i, h2⟩)) :
      FpEquiv (.arr xs) (.arr ys)
  | obj (fs gs : List (String × Json))
      (hkeys : (fs.map Prod.fst).Perm (gs.map Prod.fst))
      (hvals : ∀ k v w, (k, v) ∈ fs → (k, w) ∈ gs → k ∉ DYNAMIC_FIELDS → FpEquiv v w) :
      FpEquiv (.obj fs) (.obj gs)

/-- Core determinism lemma: payloads differing only in volatile-field values
or key order have identical canonical forms. -/
theorem canon_eq_of_fpEquiv :
    ∀ p q, FpEquiv p q →
      sortObjectKeys (removeDynamicFields p) = sortObjectKeys (removeDynamicFields q) := by
  refine json_strong_ind
    (fun p => ∀ q, FpEquiv p q →
      sortObjectKeys (removeDynamicFields p) = sortObjectKeys (removeDynamicFields q)) ?_
  intro p IH q h
  cases h with
  | null => rfl
  | bool b => rfl
  | num n => rfl
  | str s => rfl
  | arr xs ys hlen hx =>
    simp only [removeDynamicFields, sortObjectKeys,
      removeDynamicFieldsArr_eq_map, sortObjectKeysArr_eq_map]
    apply congrArg
    apply List.ext_getElem (by simp [hlen])
    intro i h1 h2
    simp only [List.getElem_map]
    have hxs : i < xs.length := by simpa using h1
    have hys : i < ys.length := by simpa using h2
    have hmem : xs.get ⟨i, hxs⟩ ∈ xs := List.get_mem xs i hxs
    have hsize : sizeOf (xs.get ⟨i, hxs⟩) < sizeOf (Json.arr xs) := sizeOf_elem_lt_arr hmem
    have := IH (xs.get ⟨i, hxs⟩) hsize (ys.get ⟨i, hys⟩) (hx i hxs hys)
    simpa using this
  | obj fs gs hkeys hvals =>
    simp only [removeDynamicFields, sortObjectKeys]
    apply congrArg
    have hkf := removeDynamicFieldsList_keys fs
    have hkg := removeDynamicFieldsList_keys gs
    have hfilter : ((fs.map Prod.fst).filter (fun k => !(decide (k ∈ DYNAMIC_FIELDS)))).Perm
        ((gs.map Prod.fst).filter (fun k => !(decide (k ∈ DYNAMIC_FIELDS)))) :=
      hkeys.filter _
    have hsortedkeys :
        ((removeDynamicFieldsList fs).map Prod.fst).insertionSort strLeR
          = ((removeDynamicFieldsList gs).map Prod.fst).insertionSort strLeR := by
      apply List.eq_of_perm_of_sorted (r := strLeR)
      · refine ((List.perm_insertionSort _ _).trans ?_).trans
          (List.perm_insertionSort _ _).symm
        rw [hkf, hkg]
        exact hfilter
      · exact List.sorted_insertionSort _ _
      · exact List.sorted_insertionSort _ _
    rw [hsortedkeys]
    unfold rebuildSorted
    apply List.map_congr_left
    intro k hkmem
    have hkclean : k ∈ (removeDynamicFieldsList gs).map Prod.fst :=
      ((List.perm_insertionSort _ _).mem_iff).mp hkmem
    have hkfilter : k ∈ (gs.map Prod.fst).filter (fun k => !(decide (k ∈ DYNAMIC_FIELDS))) := by
      rw [← hkg]; exact hkclean
    have hknotdyn : k ∉ DYNAMIC_FIELDS := by
      have := List.of_mem_filter hkfilter
      simpa using this
    have hkgs : k ∈ gs.map Prod.fst := List.mem_of_mem_filter hkfilter
    have hkfs : k ∈ fs.map Prod.fst := (hkeys.mem_iff).mpr hkgs
    rcases lookup_isSome_of_mem_keys hkfs with ⟨v, hv⟩
    rcases lookup_isSome_of_mem_keys hkgs with ⟨w, hw⟩
    have hvw : FpEquiv v w :=
      hvals k v w (lookup_mem_pair hv) (lookup_mem_pair hw) hknotdyn
    have hsize : sizeOf v < sizeOf (Json.obj fs) := sizeOf_val_lt_obj (lookup_mem_pair hv)
    have hrec := IH v hsize w hvw
    rw [sortObjectKeysFields_lookup, sortObjectKeysFields_lookup,
      removeDynamicFieldsList_lookup hknotdyn, removeDynamicFieldsList_lookup hknotdyn,
      hv, hw]
    simp [hrec]

/-- Determinism of the full digest under the payload equivalence. -/
theorem generateFingerprint_eq_of_fpEquiv {p q : Json} (h : FpEquiv p q) :
    generateFingerprint p = generateFingerprint q := by
  unfold generateFingerprint canonicalJson
  rw [canon_eq_of_fpEquiv p q h]

/-! Field edits at arbitrary nesting depth, the vocabulary in which the
volatile-identifier claim quantifies over payload modifications. -/

/-- One navigation step into a payload: an object key or an array index. -/
inductive PathStep where
  | key (k : String) : PathStep
  | idx (i : Nat) : PathStep

/-- JS property assignment `obj[k] = v`: replace the value in place if the key
exists, else append the field. -/
def setField (k : String) (v : Json) : List (String × Json) → List (String × Json)
  | [] => [(k, v)]
  | (k', v') :: rest =>
    if k' = k then (k', v) :: rest else (k', v') :: setField k v rest

/-- JS `delete obj[k]`. -/
def removeField (k : String) (fields : List (String × Json)) : List (String × Json) :=
  fields.filter (fun kv => !(kv.1 == k))

mutual
/-- Apply a field-list edit `f` to the object reached by `path`; payloads whose
shape does not match the path are returned unchanged. -/
def editAt : Json → List PathStep → (List (String × Json) → List (String × Json)) → Json
  | .obj fields, [], f => .obj (f fields)
  | j, [], _ => j
  | .obj fields, .key k :: rest, f => .obj (editAtFields k rest f fields)
  | .arr items, .idx i :: rest, f => .arr (editAtArr i rest f items)
  | j, _ :: _, _ => j

/-- Descend into the value stored under `k` (first occurrence). -/
def editAtFields (k : String) (rest : List PathStep)
    (f : List (String × Json) → List (String × Json)) :
    List (String × Json) → List (String × Json)
  | [] => []
  | (k', v) :: tail =>
    if k' = k then (k', editAt v rest f) :: tail
    else (k', v) :: editAtFields k rest f tail

/-- Descend into the element at index `i`. -/
def editAtArr (i : Nat) (rest : List PathStep)
    (f : List (String × Json) → List (String × Json)) :
    List Json → List Json
  | [] => []
  | x :: xs =>
    match i with
    | 0 => editAt x rest f :: xs
    | n + 1 => x :: editAtArr n rest f xs
end

/-- Set field `k` to `v` inside the object reached by `path`. -/
def setAtPath (p : Json) (path : List PathStep) (k : String) (v : Json) : Json :=
  editAt p path (setField k v)

/-- Remove field `k` from the object reached by `path`. -/
def removeAtPath (p : Json) (path : List PathStep) (k : String) : Json :=
  editAt p path (removeField k)

/-- Setting a volatile field is invisible to the volatile-field filter. -/
theorem removeDynamicFieldsList_setField {k : String} (hk : k ∈ DYNAMIC_FIELDS) (v : Json) :
    ∀ fs : List (String × Json),
      removeDynamicFieldsList (setField k v fs) = removeDynamicFieldsList fs := by
  intro fs
  induction fs with
  | nil => simp [setField, removeDynamicFieldsList, hk]
  | cons p rest ih =>
    cases p with
    | mk k' v' =>
      by_cases hkk : k' = k
      · subst hkk
        simp [setField, removeDynamicFieldsList, hk]
      · simp [setField, hkk, removeDynamicFieldsList, ih]

/-- Removing a volatile field is invisible to the volatile-field filter. -/
theorem removeDynamicFieldsList_removeField {k : String} (hk : k ∈ DYNAMIC_FIELDS) :
    ∀ fs : List (String × Json),
      removeDynamicFieldsList (removeField k fs) = removeDynamicFieldsList fs := by
  intro fs
  induction fs with
  | nil => rfl
  | cons p rest ih =>
    cases p with
    | mk k' v' =>
      by_cases hkk : k' = k
      · subst hkk
        have hstep : removeField k' ((k', v') :: rest) = removeField k' rest := by
          simp [removeField]
        rw [hstep, ih]
        simp [removeDynamicFieldsList, hk]
      · simp [removeField, hkk, removeDynamicFieldsList]
        rw [show List.filter (fun kv => !(kv.1 == k)) rest = removeField k rest from rfl, ih]

/-- Edits at any depth through a field-level edit that the volatile filter
cannot see leave the cleaned payload unchanged. -/
theorem removeDynamicFields_editAt
    (f : List (String × Json) → List (String × Json))
    (hf : ∀ fs, removeDynamicFieldsList (f fs) = removeDynamicFieldsList fs) :
    ∀ (path : List PathStep) (p : Json),
      removeDynamicFields (editAt p path f) = removeDynamicFields p := by
  intro path
  induction path with
  | nil =>
    intro p
    cases p with
    | obj fields => simp [editAt, removeDynamicFields, hf]
    | null => rfl
    | bool b => rfl
    | num n => rfl
    | str s => rfl
    | arr items => rfl
  | cons step rest ih =>
    intro p
    cases step with
    | key k =>
      cases p with
      | obj fields =>
        simp only [editAt, removeDynamicFields]
        apply congrArg
        induction fields with
        | nil => rfl
        | cons q tail iht =>
          cases q with
          | mk k' v =>
            by_cases hkk : k' = k
            · subst hkk
              by_cases hdyn : k' ∈ DYNAMIC_FIELDS
              · simp [editAtFields, removeDynamicFieldsList, hdyn]
              · simp [editAtFields, removeDynamicFieldsList, hdyn, ih v]
            · by_cases hdyn : k' ∈ DYNAMIC_FIELDS
              · simp [editAtFields, hkk, removeDynamicFieldsList, hdyn, iht]
              · simp [editAtFields, hkk, removeDynamicFieldsList, hdyn, iht]
      | null => rfl
      | bool b => rfl
      | num n => rfl
      | str s => rfl
      | arr items => rfl
    | idx i =>
      cases p with
      | arr items =>
        simp only [editAt, removeDynamicFields]
        apply congrArg
        induction items generalizing i with
        | nil => rfl
        | cons x xs iht =>
          cases i with
          | zero => simp [editAtArr, removeDynamicFieldsArr, ih x]
          | succ n => simp [editAtArr, removeDynamicFieldsArr, iht n]
      | null => rfl
      | bool b => rfl
      | num n => rfl
      | str s => rfl
      | obj fields => rfl

example :
    setAtPath (.obj [("id", .num 1), ("m", .str "x")]) [] "id" (.num 2)
      = .obj [("id", .num 2), ("m", .str "x")] := rfl

example :
    generateFingerprint (setAtPath (.obj [("m", .str "x")]) [] "uuid" (.str "u1"))
      = generateFingerprint (.obj [("m", .str "x")]) := by decide

/-! Job store (`src/db.ts`): the `jobs` and `fingerprints` tables, the prepared
statements, and the two transactions.  Timestamps are seconds as integers;
`now` plays `CURRENT_TIMESTAMP` / `datetime('now')`. -/

/-- Job lifecycle states (the `status` column). -/
inductive JobStatus where
  | pending : JobStatus
  | processing : JobStatus
  | completed : JobStatus
  | failed : JobStatus
  | duplicate : JobStatus
deriving DecidableEq

/-- One row of the `jobs` table. -/
structure JobRow where
  id : Nat
  payload : String
  fingerprint : String
  status : JobStatus
  error : Option String
  analysis : Option String
  linear_issue_id : Option String
  linear_identifier : Option String
  created_at : Int
  processed_at : Option Int
deriving DecidableEq

/-- One row of the `fingerprints` ledger (`hash` is the primary key). -/
structure FingerprintRow where
  hash : String
  linear_issue_id : String
  linear_identifier : String
  created_at : Int
deriving DecidableEq

/-- Database state: both tables, the AUTOINCREMENT counter and the clock. -/
structure DbState where
  jobs : List JobRow
  fingerprints : List FingerprintRow
  nextId : Nat
  now : Int
deriving DecidableEq

/-- The `created_at > datetime('now', '-' || w || ' days')` window condition. -/
def inWindow (created now w : Int) : Bool := now - w * 86400 < created

/-- `findFingerprintStmt`: the ledger row for `hash` within the window. -/
def findFingerprintStmt (st : DbState) (hash : String) (w : Int) : Option FingerprintRow :=
  st.fingerprints.find? (fun r => r.hash == hash && inWindow r.created_at st.now w)

/-- Ordering rows by creation time, for `ORDER BY created_at ASC`. -/
def jobLeR (a b : JobRow) : Prop := a.created_at ≤ b.created_at

instance : DecidableRel jobLeR := fun a b => by unfold jobLeR; infer_instance

/-- `findPendingJobByFingerprintStmt`: oldest pending/processing job with the
fingerprint inside the window. -/
def findPendingJobByFingerprintStmt (st : DbState) (fp : String) (w : Int) : Option JobRow :=
  ((st.jobs.filter (fun j =>
      j.fingerprint == fp
        && (j.status == JobStatus.pending || j.status == JobStatus.processing)
        && inWindow j.created_at st.now w)).insertionSort jobLeR).head?

/-- `insertJobStmt`: plain insert, `status` defaulting to `'pending'`. -/
def insertJobStmt (st : DbState) (payload fp : String) : Nat × DbState :=
  (st.nextId,
   { st with
       jobs := st.jobs ++
         [{ id := st.nextId, payload := payload, fingerprint := fp,
            status := JobStatus.pending, error := none, analysis := none,
            linear_issue_id := none, linear_identifier := none,
            created_at := st.now, processed_at := none }],
       nextId := st.nextId + 1 })

/-- `insertDuplicateJobStmt`: insert directly terminal as `'duplicate'`, with
an optional ticket identifier and `processed_at = CURRENT_TIMESTAMP`. -/
def insertDuplicateJobStmt (st : DbState) (payload fp : String)
    (ident : Option String) : Nat × DbState :=
  (st.nextId,
   { st with
       jobs := st.jobs ++
         [{ id := st.nextId, payload := payload, fingerprint := fp,
            status := JobStatus.duplicate, error := none, analysis := none,
            linear_issue_id := none, linear_identifier := ident,
            created_at := st.now, processed_at := some st.now }],
       nextId := st.nextId + 1 })

/-- `insertFingerprintStmt`: `INSERT OR IGNORE` keyed on `hash`. -/
def insertFingerprintStmt (st : DbState) (hash issueId ident : String) : DbState :=
  if st.fingerprints.any (fun r => r.hash == hash) then st
  else
    { st with
        fingerprints := st.fingerprints ++
          [{ hash := hash, linear_issue_id := issueId,
             linear_identifier := ident, created_at := st.now }] }

/-- `markCompletedStmt`: set terminal completed state with ticket reference,
analysis and processing timestamp on the row with the given id. -/
def markCompletedStmt (st : DbState) (issueId ident analysis : String)
    (jobId : Nat) : DbState :=
  { st with
      jobs := st.jobs.map (fun j =>
        if j.id = jobId then
          { j with status := JobStatus.completed, linear_issue_id := some issueId,
                   linear_identifier := some ident, analysis := some analysis,
                   processed_at := some st.now }
        else j) }

/-- `markFailedStmt`: set status failed, record error text and timestamp. -/
def markFailedStmt (st : DbState) (err : String) (jobId : Nat) : DbState :=
  { st with
      jobs := st.jobs.map (fun j =>
        if j.id = jobId then
          { j with status := JobStatus.failed, error := some err,
                   processed_at := some st.now }
        else j) }

/-- `markDuplicateStmt`: terminal duplicate transition with ticket reference. -/
def markDuplicateStmt (st : DbState) (ident : String) (jobId : Nat) : DbState :=
  { st with
      jobs := st.jobs.map (fun j =>
        if j.id = jobId then
          { j with status := JobStatus.duplicate, linear_identifier := some ident,
                   processed_at := some st.now }
        else j) }

/-- `claimNextJobStmt`: atomically flip the oldest pending job to processing
and return it. -/
def claimNextJobStmt (st : DbState) : Option JobRow × DbState :=
  match ((st.jobs.filter (fun j => j.status == JobStatus.pending)).insertionSort
      jobLeR).head? with
  | none => (none, st)
  | some j =>
    (some j,
     { st with
         jobs := st.jobs.map (fun r =>
           if r.id = j.id then { r with status := JobStatus.processing } else r) })

/-- Result of `insertJobIfNotDuplicate` (the `InsertJobResult` union type). -/
inductive InsertJobResult where
  | inserted (jobId : Nat) : InsertJobResult
  | duplicate (jobId : Nat) (linear_identifier : Option String) : InsertJobResult
deriving DecidableEq

/-- `insertJobIfNotDuplicateTx` (`src/db.ts`): single transaction making the
three-way decision between resolved duplicate, in-flight duplicate and fresh
pending insert. -/
def insertJobIfNotDuplicateTx (st : DbState) (payload fp : String) (w : Int) :
    InsertJobResult × DbState :=
  match findFingerprintStmt st fp w with
  | some completed =>
    let r := insertDuplicateJobStmt st payload fp (some completed.linear_identifier)
    (InsertJobResult.duplicate r.1 (some completed.linear_identifier), r.2)
  | none =>
    match findPendingJobByFingerprintStmt st fp w with
    | some _ =>
      let r := insertDuplicateJobStmt st payload fp none
      (InsertJobResult.duplicate r.1 none, r.2)
    | none =>
      let r := insertJobStmt st payload fp
      (InsertJobResult.inserted r.1, r.2)

/-- `completeJobWithFingerprintTx` (`src/db.ts`): one transaction inserting the
ledger entry (idempotently) and marking the job completed. -/
def completeJobWithFingerprintTx (st : DbState) (jobId : Nat)
    (fp issueId ident analysis : String) : DbState :=
  markCompletedStmt (insertFingerprintStmt st fp issueId ident) issueId ident analysis jobId

/-! JSON decoding (`JSON.parse`), needed by the stream parser and the
extraction fallbacks.  Fuel-driven recursive descent over character lists;
the wrapper supplies fuel exceeding the input length.  Fractional and
exponent numeric literals are outside the integer-precision model and fail
to parse (no payload in scope uses them). -/

/-- JSON whitespace accepted between tokens. -/
def jsonWs (c : Char) : Bool := c == ' ' || c == '\n' || c == '\t' || c == '\r'

/-- Decimal digit test. -/
def isDigitCh (c : Char) : Bool := 48 ≤ c.toNat && c.toNat ≤ 57

/-- Value of one hexadecimal digit, if any. -/
def hexVal (c : Char) : Option Nat :=
  if 48 ≤ c.toNat ∧ c.toNat ≤ 57 then some (c.toNat - 48)
  else if 97 ≤ c.toNat ∧ c.toNat ≤ 102 then some (c.toNat - 87)
  else if 65 ≤ c.toNat ∧ c.toNat ≤ 70 then some (c.toNat - 55)
  else none

/-- Parse the body of a JSON string literal after the opening quote,
returning the decoded characters and the remainder after the closing quote. -/
def parseStrBody : List Char → List Char → Option (List Char × List Char)
  | acc, '"' :: rest => some (acc.reverse, rest)
  | acc, '\\' :: e :: rest =>
    if e = '"' then parseStrBody ('"' :: acc) rest
    else if e = '\\' then parseStrBody ('\\' :: acc) rest
    else if e = '/' then parseStrBody ('/' :: acc) rest
    else if e = 'b' then parseStrBody (Char.ofNat 8 :: acc) rest
    else if e = 'f' then parseStrBody (Char.ofNat 12 :: acc) rest
    else if e = 'n' then parseStrBody ('\n' :: acc) rest
    else if e = 'r' then parseStrBody (Char.ofNat 13 :: acc) rest
    else if e = 't' then parseStrBody ('\t' :: acc) rest
    else if e = 'u' then
      match rest with
      | h1 :: h2 :: h3 :: h4 :: rest' =>
        match hexVal h1, hexVal h2, hexVal h3, hexVal h4 with
        | some a, some b, some c, some d =>
          parseStrBody (Char.ofNat (((a * 16 + b) * 16 + c) * 16 + d) :: acc) rest'
        | _, _, _, _ => none
      | _ => none
    else none
  | acc, c :: rest => if c.toNat < 32 then none else parseStrBody (c :: acc) rest
  | _, [] => none

/-- Parse a run of decimal digits. -/
def parseDigits : List Char → List Char → (List Char × List Char)
  | acc, c :: rest =>
    if isDigitCh c then parseDigits (c :: acc) rest else (acc.reverse, c :: rest)
  | acc, [] => (acc.reverse, [])

/-- Numeric value of a digit list. -/
def digitsToNat : List Char → Nat
  | [] => 0
  | ds => ds.foldl (fun n c => n * 10 + (c.toNat - 48)) 0

mutual
/-- Fuel-driven JSON value grammar. -/
def parseJsonValue : Nat → List Char → Option (Json × List Char)
  | 0, _ => none
  | fuel + 1, cs =>
    match cs.dropWhile jsonWs with
    | [] => none
    | c :: rest =>
      if c = 'n' then
        match rest with
        | 'u' :: 'l' :: 'l' :: rest' => some (.null, rest')
        | _ => none
      else if c = 't' then
        match rest with
        | 'r' :: 'u' :: 'e' :: rest' => some (.bool true, rest')
        | _ => none
      else if c = 'f' then
        match rest with
        | 'a' :: 'l' :: 's' :: 'e' :: rest' => some (.bool false, rest')
        | _ => none
      else if c = '"' then
        match parseStrBody [] rest with
        | some (body, rest') => some (.str (String.mk body), rest')
        | none => none
      else if c = '-' ∨ isDigitCh c then
        let (sign, digitsInput) : Int × List Char :=
          if c = '-' then (-1, rest) else (1, c :: rest)
        match parseDigits [] digitsInput with
        | ([], _) => none
        | (d :: ds, rest') =>
          if d = '0' ∧ ds ≠ [] then none
          else
            match rest' with
            | e :: _ =>
              if e = '.' ∨ e = 'e' ∨ e = 'E' then none
              else some (.num (sign * Int.ofNat (digitsToNat (d :: ds))), rest')
            | [] => some (.num (sign * Int.ofNat (digitsToNat (d :: ds))), [])
      else if c = '[' then
        match rest.dropWhile jsonWs with
        | ']' :: rest' => some (.arr [], rest')
        | _ => parseJsonElems fuel rest []
      else if c = Char.ofNat 123 then
        match rest.dropWhile jsonWs with
        | c' :: rest' =>
          if c' = Char.ofNat 125 then some (.obj [], rest')
          else parseJsonMembers fuel rest []
        | [] => none
      else none

/-- Comma-separated array elements up to `]`. -/
def parseJsonElems : Nat → List Char → List Json → Option (Json × List Char)
  | 0, _, _ => none
  | fuel + 1, cs, acc =>
    match parseJsonValue fuel cs with
    | none => none
    | some (v, rest) =>
      match rest.dropWhile jsonWs with
      | ',' :: rest' => parseJsonElems fuel rest' (v :: acc)
      | ']' :: rest' => some (.arr (acc.reverse ++ [v]), rest')
      | _ => none

/-- Comma-separated `"key": value` members up to the closing brace. -/
def parseJsonMembers : Nat → List Char → List (String × Json) →
    Option (Json × List Char)
  | 0, _, _ => none
  | fuel + 1, cs, acc =>
    match cs.dropWhile jsonWs with
    | '"' :: rest =>
      match parseStrBody [] rest with
      | none => none
      | some (key, rest') =>
        match rest'.dropWhile jsonWs with
        | ':' :: rest'' =>
          match parseJsonValue fuel rest'' with
          | none => none
          | some (v, rest3) =>
            match rest3.dropWhile jsonWs with
            | ',' :: rest4 => parseJsonMembers fuel rest4 ((String.mk key, v) :: acc)
            | c :: rest4 =>
              if c = Char.ofNat 125 then some (.obj (acc.reverse ++ [(String.mk key, v)]), rest4)
              else none
            | [] => none
        | _ => none
    | _ => none
end

/-- JS `JSON.parse`: a complete value with only whitespace around it;
`none` models the thrown `SyntaxError`. -/
def jsonParse (s : String) : Option Json :=
  match parseJsonValue (s.data.length + 8) s.data with
  | some (j, rest) => if (rest.dropWhile jsonWs).isEmpty then some j else none
  | none => none

example : jsonParse "\x7b\"a\": [1, \"x\\n\"], \"b\": null\x7d"
    = some (.obj [("a", .arr [.num 1, .str "x\n"]), ("b", .null)]) := rfl

example : jsonParse "\x7b\"a\": 1" = none := rfl

example : jsonParse "sult\":\"complete\"\x7d" = none := rfl

/-! Stream handling inside `ClaudeService.analyze` (`src/services/claude.ts`):
the `proc.stdout.on('data', ...)` handler and the result-extraction routines. -/

/-- Mutable stream state of the `analyze` promise executor: the accumulated
raw output, the most recent decoded `result` event, and every successfully
decoded line event (what the handler feeds to the structured session log). -/
structure StreamState where
  fullOutput : String
  lastResult : Option Json
  events : List Json

/-- Recognizes `event.type === 'result'` on a decoded line. -/
def isResultEvent (ev : Json) : Bool :=
  match jGet ev "type" with
  | some (.str t) => t == "result"
  | _ => false

/-- The stdout `data` handler: append the chunk to `fullOutput`, split the
chunk itself on newlines, keep non-blank fragments, attempt `JSON.parse` on
each fragment (silently skipping failures) and track the last `result` event.
The handler splits each chunk in isolation — there is no carry-over buffer. -/
def handleStdoutChunk (st : StreamState) (chunk : String) : StreamState :=
  let st := { st with fullOutput := st.fullOutput ++ chunk }
  let lines := (jsSplitNl chunk).filter (fun l => !(jsTrim l == ""))
  lines.foldl (fun st line =>
    match jsonParse line with
    | some ev =>
      let st := { st with events := st.events ++ [ev] }
      if isResultEvent ev then { st with lastResult := some ev } else st
    | none => st) st

/-- Feed a whole delivery schedule of stdout chunks through the handler. -/
def processStdout (chunks : List String) : StreamState :=
  chunks.foldl handleStdoutChunk { fullOutput := "", lastResult := none, events := [] }

/-- Truthiness of a possibly-undefined field access. -/
def jsTruthyOpt : Option Json → Bool
  | some v => jsTruthy v
  | none => false

/-- Index of the first occurrence of `pat` in a character list (`indexOf`). -/
def findSub (pat : List Char) : List Char → Option Nat
  | [] => if pat.isEmpty then some 0 else none
  | c :: cs =>
    if pat.isPrefixOf (c :: cs) then some 0
    else (findSub pat cs).map (· + 1)

/-- Successive fenced `json` code blocks, as matched by the global regex of
`extractJsonFromText`: each match runs from a `` ```json `` opening to the
first following `` ``` ``, and the scan resumes after that closing fence. -/
def fencedBlocksGo : Nat → List Char → List (List Char)
  | 0, _ => []
  | fuel + 1, cs =>
    match findSub "```json".data cs with
    | none => []
    | some i =>
      let after := cs.drop (i + 7)
      match findSub "```".data after with
      | none => []
      | some j => after.take j :: fencedBlocksGo fuel (after.drop (j + 3))

/-- All fenced block bodies of a text. -/
def fencedBlocks (s : String) : List String :=
  (fencedBlocksGo (s.data.length + 1) s.data).map String.mk

/-- First fenced block whose trimmed body parses with truthy `category` and
`summary` fields (`JSON.parse(match[1].trim())` inside the loop, skipping
malformed blocks via the swallowed exception). -/
def firstValidFencedBlock : List String → Option Json
  | [] => none
  | b :: rest =>
    match jsonParse (jsTrim b) with
    | some parsed =>
      if jsTruthyOpt (jGet parsed "category") && jsTruthyOpt (jGet parsed "summary") then
        some parsed
      else firstValidFencedBlock rest
    | none => firstValidFencedBlock rest

/-- The brace-matching loop of `extractBalancedJson`: walk the text tracking
depth, string and escape state; answer the consumed length once the depth
returns to zero.  `none` models the `Unbalanced JSON` throw. -/
def scanBalanced : List Char → Int → Bool → Bool → Nat → Option Nat
  | [], _, _, _, _ => none
  | c :: cs, depth, inString, escape, n =>
    if escape then scanBalanced cs depth inString false (n + 1)
    else if c == '\\' && inString then scanBalanced cs depth inString true (n + 1)
    else if c == '"' then scanBalanced cs depth (!inString) escape (n + 1)
    else if !inString && c == Char.ofNat 123 then scanBalanced cs (depth + 1) inString escape (n + 1)
    else if !inString && c == Char.ofNat 125 then
      if depth - 1 = 0 then some (n + 1)
      else scanBalanced cs (depth - 1) inString escape (n + 1)
    else scanBalanced cs depth inString escape (n + 1)

/-- `extractBalancedJson(text, startIdx)`: scan for the matching close brace
from `startIdx` and `JSON.parse` the slice; `none` covers both the unbalanced
throw and a parse failure of the slice (both caught identically by the one
caller). -/
def extractBalancedJson (text : String) (startIdx : Nat) : Option Json :=
  match scanBalanced (text.data.drop startIdx) 0 false false 0 with
  | some len => jsonParse (String.mk ((text.data.drop startIdx).take len))
  | none => none

/-- The recognizable opening patterns announcing the `category` field, in the
order the source tries them. -/
def balancedPatterns : List String :=
  ["\x7b\n  \"category\"", "\x7b\"category\"", "\x7b \"category\""]

/-- Try `extractBalancedJson` at the first index of each pattern, falling
through on a miss or a caught failure. -/
def tryBalancedPatterns (text : String) : List String → Option Json
  | [] => none
  | p :: ps =>
    match findSub p.data text.data with
    | some i =>
      match extractBalancedJson text i with
      | some j => some j
      | none => tryBalancedPatterns text ps
    | none => tryBalancedPatterns text ps

/-- The typed failure of the extraction routine
(`Error('No valid JSON analysis found in output')`). -/
inductive ExtractErr where
  | noResult : ExtractErr
deriving DecidableEq

/-- `extractJsonFromText`: fenced blocks first, then the brace-balanced
patterns over the same text, else the typed no-result error. -/
def extractJsonFromText (text : String) : Except ExtractErr Json :=
  match firstValidFencedBlock (fencedBlocks text) with
  | some j => Except.ok j
  | none =>
    match tryBalancedPatterns text balancedPatterns with
    | some j => Except.ok j
    | none => Except.error ExtractErr.noResult

/-- `parseStreamOutput(fullOutput, lastResult)`: prefer the captured result
event — a string payload is mined with `extractJsonFromText`, an object
payload with truthy `category` and `summary` is returned directly — otherwise
fall back to mining the whole buffered output. -/
def parseStreamOutput (fullOutput : String) (lastResult : Option Json) :
    Except ExtractErr Json :=
  match lastResult with
  | some (.obj resFields) =>
    match jGet (Json.obj resFields) "result" with
    | some content =>
      if jsTruthy content then
        match content with
        | .str s => extractJsonFromText s
        | .obj cFields =>
          if jsTruthyOpt (jGet (.obj cFields) "category")
              && jsTruthyOpt (jGet (.obj cFields) "summary") then
            Except.ok (.obj cFields)
          else extractJsonFromText fullOutput
        | _ => extractJsonFromText fullOutput
      else extractJsonFromText fullOutput
    | none => extractJsonFromText fullOutput
  | _ => extractJsonFromText fullOutput

/-! Orchestration protocol of `analyze` (`src/services/claude.ts`): the
promise executor's handlers as a state machine over the child process's
observable events, per the design note modelling `spawned → streaming →
(timed-out | exited)`.  Wall-clock scheduling is abstracted into event order:
`timeoutFire` occurring before `close` is exactly the case where the process
outlived the deadline, and the `setTimeout` callback cannot fire after
`close` because `close` clears the timer. -/

/-- Observable events delivered to the `analyze` promise executor. -/
inductive ProcEvent where
  | data (chunk : String) : ProcEvent
  | timeoutFire : ProcEvent
  | close (code : Int) : ProcEvent
  | errorEv (msg : String) : ProcEvent

/-- Settlement of the `analyze` promise.  The three rejection shapes carry the
`ClaudeExecutionError` message; execution and parse failures also attach the
full captured output (the `stderr` constructor argument of the error class). -/
inductive AnalyzeOutcome where
  | ok (analysis : Json) : AnalyzeOutcome
  | errTimeout (msg : String) : AnalyzeOutcome
  | errExec (msg : String) (output : String) : AnalyzeOutcome
  | errSpawn (msg : String) : AnalyzeOutcome
  | errParse (output : String) : AnalyzeOutcome

/-- Executor state: stream accumulation, one-shot settlement, whether
`proc.kill('SIGTERM')` ran, and whether the manual timer was cleared. -/
structure AnalyzeState where
  stream : StreamState
  settled : Option AnalyzeOutcome
  killed : Bool
  timerCleared : Bool

/-- Initial executor state after spawning. -/
def analyzeInit : AnalyzeState :=
  { stream := { fullOutput := "", lastResult := none, events := [] },
    settled := none, killed := false, timerCleared := false }

/-- Settle the promise if it has not settled yet (`resolve`/`reject` are
no-ops afterwards). -/
def settleOnce (st : AnalyzeState) (out : AnalyzeOutcome) : AnalyzeState :=
  match st.settled with
  | some _ => st
  | none => { st with settled := some out }

/-- One handler activation.  The timeout callback exists only when the
configured timeout is positive and runs only while the timer is alive; it
kills the process and rejects with the typed timeout error.  `close` clears
the timer and resolves or rejects by exit code; `error` rejects with the
spawn failure. -/
def analyzeStep (timeout : Int) (st : AnalyzeState) : ProcEvent → AnalyzeState
  | .data chunk => { st with stream := handleStdoutChunk st.stream chunk }
  | .timeoutFire =>
    if 0 < timeout ∧ !st.timerCleared then
      settleOnce { st with killed := true }
        (.errTimeout ("Claude timed out after " ++ toString timeout ++ "ms"))
    else st
  | .close code =>
    let st := { st with timerCleared := true }
    if code ≠ 0 then
      settleOnce st (.errExec ("Claude exited with code " ++ toString code)
        st.stream.fullOutput)
    else
      match parseStreamOutput st.stream.fullOutput st.stream.lastResult with
      | Except.ok analysis => settleOnce st (.ok analysis)
      | Except.error _ => settleOnce st (.errParse st.stream.fullOutput)
  | .errorEv msg =>
    settleOnce st (.errSpawn ("Failed to spawn claude: " ++ msg))

/-- Run the executor over a delivery schedule. -/
def runAnalyze (timeout : Int) (events : List ProcEvent) : AnalyzeState :=
  events.foldl (analyzeStep timeout) analyzeInit

/-! Claim theorems. -/

/-- The logical result line of the job-665 scenario from `claude.test.ts`,
split below at character offset 20 exactly as the test does. -/
def resultLine : String := "\x7b\"type\":\"result\",\"result\":\"complete data\"\x7d"

/-- C1: the claim asserts chunk-boundary insensitivity of the decoded events
and the tracked terminal result via a carry-over buffer.  The stdout handler
of `ClaudeService.analyze` has no carry-over buffer: it splits every chunk in
isolation, so a result line delivered whole decodes (first conjunct) while the
same line split at offset 20 — the boundary used by `claude.test.ts` — never
decodes and leaves `lastResult` empty and the decoded event set empty (second
and third conjuncts), even though the delivered bytes are identical (fourth
conjunct).  This contradicts the reassembly the tests and spec require. -/
theorem analyze_chunk_boundary_sensitive :
    (processStdout [resultLine ++ "\n"]).lastResult
        = some (.obj [("type", .str "result"), ("result", .str "complete data")])
    ∧ (processStdout ["\x7b\"type\":\"result\",\"re", "sult\":\"complete data\"\x7d\n"]).lastResult
        = none
    ∧ (processStdout ["\x7b\"type\":\"result\",\"re", "sult\":\"complete data\"\x7d\n"]).events
        = []
    ∧ "\x7b\"type\":\"result\",\"re" ++ "sult\":\"complete data\"\x7d\n" = resultLine ++ "\n" :=
  ⟨rfl, rfl, rfl, rfl⟩

/-- C8: the ingestion path uses the caller-supplied fingerprint exactly when
it is a string that trims to a non-empty value (a string is never the literal
zero, so the `value === 0` test cannot reject one); every other supplied
value — absent, `null`, zero, any non-string, empty or whitespace-only
string — falls back to the computed digest of the payload. -/
theorem external_fingerprint_rule (payload : List (String × Json)) :
    (isValidExternalFingerprint (payload.lookup "fingerprint") = true ↔
      ∃ s, payload.lookup "fingerprint" = some (Json.str s) ∧ jsTrim s ≠ "")
    ∧ (∀ s, payload.lookup "fingerprint" = some (Json.str s) → jsTrim s ≠ "" →
        resolvedFingerprint payload = s)
    ∧ (isValidExternalFingerprint (payload.lookup "fingerprint") = false →
        resolvedFingerprint payload = generateFingerprint (.obj payload)) := by
  refine ⟨?_, ?_, ?_⟩
  · constructor
    · intro h
      match hl : payload.lookup "fingerprint" with
      | none => rw [hl] at h; simp [isValidExternalFingerprint] at h
      | some .null => rw [hl] at h; simp [isValidExternalFingerprint] at h
      | some (.bool b) => rw [hl] at h; simp [isValidExternalFingerprint] at h
      | some (.num n) =>
        rw [hl] at h
        by_cases hn : n = 0
        · subst hn; simp [isValidExternalFingerprint] at h
        · simp [isValidExternalFingerprint, hn] at h
      | some (.str s) =>
        rw [hl] at h
        simp only [isValidExternalFingerprint, Bool.not_eq_true'] at h
        exact ⟨s, rfl, by simpa using h⟩
      | some (.arr xs) => rw [hl] at h; simp [isValidExternalFingerprint] at h
      | some (.obj fs) => rw [hl] at h; simp [isValidExternalFingerprint] at h
    · rintro ⟨s, hl, hs⟩
      rw [hl]
      simp only [isValidExternalFingerprint, Bool.not_eq_true']
      simpa using hs
  · intro s hl hs
    unfold resolvedFingerprint
    rw [hl]
    have hv : isValidExternalFingerprint (some (Json.str s)) = true := by
      simp only [isValidExternalFingerprint, Bool.not_eq_true']
      simpa using hs
    rw [if_pos hv]
  · intro h
    unfold resolvedFingerprint
    rw [if_neg (by simp [h])]

/-- Witness for C8 at a concrete payload carrying a valid external
fingerprint, and at one carrying the rejected zero value. -/
theorem external_fingerprint_rule_witness :
    resolvedFingerprint [("fingerprint", .str "abc"), ("m", .num 1)] = "abc"
    ∧ resolvedFingerprint [("fingerprint", .num 0), ("m", .num 1)]
        = generateFingerprint (.obj [("fingerprint", .num 0), ("m", .num 1)]) :=
  ⟨(external_fingerprint_rule [("fingerprint", .str "abc"), ("m", .num 1)]).2.1
      "abc" rfl (by decide),
   (external_fingerprint_rule [("fingerprint", .num 0), ("m", .num 1)]).2.2 rfl⟩

/-- C9: `markFailed` rewrites only the targeted row — status `'failed'`,
error text, processing timestamp — leaving its other columns, every other
job row, the ledger, the id counter and the clock untouched; consequently,
once the failed job was the only in-flight holder of its fingerprint and the
ledger does not resolve it, a later enqueue of the same fingerprint is
admitted as `'pending'` rather than suppressed. -/
theorem markFailed_frame (st : DbState) (jobId : Nat) (err : String) :
    ((markFailedStmt st err jobId).fingerprints = st.fingerprints
      ∧ (markFailedStmt st err jobId).nextId = st.nextId
      ∧ (markFailedStmt st err jobId).now = st.now)
    ∧ (∀ j ∈ st.jobs, j.id ≠ jobId → j ∈ (markFailedStmt st err jobId).jobs)
    ∧ (∀ j ∈ st.jobs, j.id = jobId →
        { j with status := JobStatus.failed, error := some err,
                 processed_at := some st.now } ∈ (markFailedStmt st err jobId).jobs)
    ∧ (∀ fp w, findFingerprintStmt (markFailedStmt st err jobId) fp w
        = findFingerprintStmt st fp w)
    ∧ (∀ payload fp w,
        findFingerprintStmt st fp w = none →
        (∀ j ∈ st.jobs,
          (j.fingerprint = fp
            ∧ (j.status = JobStatus.pending ∨ j.status = JobStatus.processing)) →
          j.id = jobId) →
        (insertJobIfNotDuplicateTx (markFailedStmt st err jobId) payload fp w).1
          = InsertJobResult.inserted st.nextId) := by
  refine ⟨⟨rfl, rfl, rfl⟩, ?_, ?_, ?_, ?_⟩
  · intro j hj hne
    simp only [markFailedStmt]
    exact List.mem_map.mpr ⟨j, hj, by rw [if_neg hne]⟩
  · intro j hj hid
    simp only [markFailedStmt]
    exact List.mem_map.mpr ⟨j, hj, by rw [if_pos hid]⟩
  · intro fp w
    rfl
  · intro payload fp w hledger honly
    have hfind : findFingerprintStmt (markFailedStmt st err jobId) fp w = none := hledger
    have hpend : findPendingJobByFingerprintStmt (markFailedStmt st err jobId) fp w = none := by
      unfold findPendingJobByFingerprintStmt
      have hfilter : (markFailedStmt st err jobId).jobs.filter (fun j =>
          j.fingerprint == fp
            && (j.status == JobStatus.pending || j.status == JobStatus.processing)
            && inWindow j.created_at (markFailedStmt st err jobId).now w) = [] := by
        rw [List.filter_eq_nil_iff]
        intro j' hj'
        simp only [markFailedStmt] at hj'
        rcases List.mem_map.mp hj' with ⟨j, hj, hj'eq⟩
        by_cases hid : j.id = jobId
        · rw [if_pos hid] at hj'eq
          subst hj'eq
          simp
        · rw [if_neg hid] at hj'eq
          subst hj'eq
          intro hcontra
          simp only [Bool.and_eq_true, beq_iff_eq, Bool.or_eq_true] at hcontra
          exact hid (honly j hj ⟨hcontra.1.1, by
            rcases hcontra.1.2 with h | h
            · exact Or.inl (by simpa using h)
            · exact Or.inr (by simpa using h)⟩)
      rw [hfilter]
      rfl
    unfold insertJobIfNotDuplicateTx
    rw [hfind, hpend]
    rfl

/-- Witness for C9 at a one-job database with a processing job. -/
theorem markFailed_frame_witness :
    (insertJobIfNotDuplicateTx
      (markFailedStmt
        { jobs := [{ id := 1, payload := "p", fingerprint := "f",
                     status := JobStatus.processing, error := none, analysis := none,
                     linear_issue_id := none, linear_identifier := none,
                     created_at := 0, processed_at := none }],
          fingerprints := [], nextId := 2, now := 5 } "boom" 1)
      "p2" "f" 30).1 = InsertJobResult.inserted 2 :=
  (markFailed_frame
    { jobs := [{ id := 1, payload := "p", fingerprint := "f",
                 status := JobStatus.processing, error := none, analysis := none,
                 linear_issue_id := none, linear_identifier := none,
                 created_at := 0, processed_at := none }],
      fingerprints := [], nextId := 2, now := 5 } 1 "boom").2.2.2.2
    "p2" "f" 30 rfl (by
      intro j hj _
      simp only [List.mem_singleton] at hj
      rw [hj])

/-- Shape of a freshly inserted pending row. -/
def pendingRowOf (st : DbState) (payload fp : String) : JobRow :=
  { id := st.nextId, payload := payload, fingerprint := fp,
    status := JobStatus.pending, error := none, analysis := none,
    linear_issue_id := none, linear_identifier := none,
    created_at := st.now, processed_at := none }

/-- Shape of a row inserted directly as a terminal duplicate. -/
def dupRowOf (st : DbState) (payload fp : String) (ident : Option String) : JobRow :=
  { id := st.nextId, payload := payload, fingerprint := fp,
    status := JobStatus.duplicate, error := none, analysis := none,
    linear_issue_id := none, linear_identifier := ident,
    created_at := st.now, processed_at := some st.now }

/-- A zero-filter result makes the oldest-pending query empty. -/
theorem findPending_none_iff_filter_nil (st : DbState) (fp : String) (w : Int) :
    findPendingJobByFingerprintStmt st fp w = none ↔
      st.jobs.filter (fun j =>
        j.fingerprint == fp
          && (j.status == JobStatus.pending || j.status == JobStatus.processing)
          && inWindow j.created_at st.now w) = [] := by
  unfold findPendingJobByFingerprintStmt
  rw [List.head?_eq_none_iff]
  constructor
  · intro h
    exact List.Perm.eq_nil ((List.perm_insertionSort jobLeR _).symm.trans (by rw [h]))
  · intro h
    rw [h]
    rfl

/-- C2: `insertJobIfNotDuplicate` makes the three-way decision in one
transaction — ledger hit inserts a terminal duplicate carrying the existing
ticket identifier; an in-flight pending/processing holder inserts a duplicate
without ticket reference; otherwise the job is inserted pending.  With a
positive window, two successive enqueues of the same unresolved fingerprint
therefore append exactly one pending row and one duplicate row. -/
theorem insertJobIfNotDuplicate_decision (st : DbState) (payload fp : String) (w : Int) :
    (∀ row, findFingerprintStmt st fp w = some row →
      (insertJobIfNotDuplicateTx st payload fp w).1
          = InsertJobResult.duplicate st.nextId (some row.linear_identifier)
        ∧ (insertJobIfNotDuplicateTx st payload fp w).2.jobs
          = st.jobs ++ [dupRowOf st payload fp (some row.linear_identifier)])
    ∧ (findFingerprintStmt st fp w = none →
        ∀ j, findPendingJobByFingerprintStmt st fp w = some j →
          (insertJobIfNotDuplicateTx st payload fp w).1
              = InsertJobResult.duplicate st.nextId none
            ∧ (insertJobIfNotDuplicateTx st payload fp w).2.jobs
              = st.jobs ++ [dupRowOf st payload fp none])
    ∧ (findFingerprintStmt st fp w = none →
        findPendingJobByFingerprintStmt st fp w = none →
          (insertJobIfNotDuplicateTx st payload fp w).1
              = InsertJobResult.inserted st.nextId
            ∧ (insertJobIfNotDuplicateTx st payload fp w).2.jobs
              = st.jobs ++ [pendingRowOf st payload fp])
    ∧ (∀ payload2, 0 < w →
        findFingerprintStmt st fp w = none →
        findPendingJobByFingerprintStmt st fp w = none →
          (insertJobIfNotDuplicateTx st payload fp w).1
              = InsertJobResult.inserted st.nextId
            ∧ (insertJobIfNotDuplicateTx
                  (insertJobIfNotDuplicateTx st payload fp w).2 payload2 fp w).1
              = InsertJobResult.duplicate (st.nextId + 1) none
            ∧ (insertJobIfNotDuplicateTx
                  (insertJobIfNotDuplicateTx st payload fp w).2 payload2 fp w).2.jobs
              = st.jobs ++ [pendingRowOf st payload fp,
                  { dupRowOf st payload2 fp none with id := st.nextId + 1 }]) := by
  refine ⟨?_, ?_, ?_, ?_⟩
  · intro row hrow
    unfold insertJobIfNotDuplicateTx
    rw [hrow]
    exact ⟨rfl, rfl⟩
  · intro hledger j hpend
    unfold insertJobIfNotDuplicateTx
    rw [hledger, hpend]
    exact ⟨rfl, rfl⟩
  · intro hledger hpend
    unfold insertJobIfNotDuplicateTx
    rw [hledger, hpend]
    exact ⟨rfl, rfl⟩
  · intro payload2 hw hledger hpend
    have hfirst : (insertJobIfNotDuplicateTx st payload fp w)
        = (InsertJobResult.inserted st.nextId,
           { st with jobs := st.jobs ++ [pendingRowOf st payload fp],
                     nextId := st.nextId + 1 }) := by
      unfold insertJobIfNotDuplicateTx
      rw [hledger, hpend]
      rfl
    refine ⟨by rw [hfirst], ?_, ?_⟩
    all_goals
      rw [hfirst]
      have hledger1 : findFingerprintStmt
          { st with jobs := st.jobs ++ [pendingRowOf st payload fp],
                    nextId := st.nextId + 1 } fp w = none := hledger
      have hwin : inWindow st.now st.now w = true := by
        have hpos : (0 : Int) < w * 86400 := by positivity
        simp only [inWindow, decide_eq_true_eq]
        omega
      have hpend1 : findPendingJobByFingerprintStmt
          { st with jobs := st.jobs ++ [pendingRowOf st payload fp],
                    nextId := st.nextId + 1 } fp w
          = some (pendingRowOf st payload fp) := by
        unfold findPendingJobByFingerprintStmt
        have hnil := (findPending_none_iff_filter_nil st fp w).mp hpend
        simp only [List.filter_append, hnil, List.nil_append]
        have hrow : (fun (j : JobRow) =>
            j.fingerprint == fp
              && (j.status == JobStatus.pending || j.status == JobStatus.processing)
              && inWindow j.created_at st.now w) (pendingRowOf st payload fp) = true := by
          simp [pendingRowOf, hwin]
        simp [List.filter, hrow, List.insertionSort]
      unfold insertJobIfNotDuplicateTx
      rw [hledger1, hpend1]
      simp [insertDuplicateJobStmt, dupRowOf]

/-- Witness for C2: the spec's `dup-test` scenario on an empty store — first
enqueue pending, second enqueue duplicate while the first is still pending. -/
theorem insertJobIfNotDuplicate_decision_witness :
    (insertJobIfNotDuplicateTx
        { jobs := [], fingerprints := [], nextId := 1, now := 0 } "p1" "dup-test" 30).1
      = InsertJobResult.inserted 1
    ∧ (insertJobIfNotDuplicateTx
        (insertJobIfNotDuplicateTx
          { jobs := [], fingerprints := [], nextId := 1, now := 0 } "p1" "dup-test" 30).2
        "p2" "dup-test" 30).1
      = InsertJobResult.duplicate 2 none := by
  have h := (insertJobIfNotDuplicate_decision
    { jobs := [], fingerprints := [], nextId := 1, now := 0 } "p1" "dup-test" 30).2.2.2
    "p2" (by norm_num) rfl rfl
  exact ⟨h.1, h.2.1⟩

/-! C3 apparatus: worker-level steps over the job store and the invariant
that a completed job always has its fingerprint in the ledger. -/

/-- Worker/ingestion-level atomic operations on the store.  `better-sqlite3`
transactions and single statements run synchronously, so each is one step;
the complete step fixes the ledger hash to the completed job's fingerprint,
as `processJob` does (`db.completeJobWithFingerprint(job.id, job.fingerprint,
...)`). -/
inductive DbStep : DbState → DbState → Prop where
  | enqueue (st : DbState) (payload fp : String) (w : Int) :
      DbStep st (insertJobIfNotDuplicateTx st payload fp w).2
  | claim (st : DbState) : DbStep st (claimNextJobStmt st).2
  | completeFp (st : DbState) (j : JobRow) (issueId ident analysis : String)
      (hj : j ∈ st.jobs) :
      DbStep st (completeJobWithFingerprintTx st j.id j.fingerprint issueId ident analysis)
  | failJob (st : DbState) (jobId : Nat) (err : String) :
      DbStep st (markFailedStmt st err jobId)
  | dupJob (st : DbState) (jobId : Nat) (ident : String) :
      DbStep st (markDuplicateStmt st ident jobId)
  | tick (st : DbState) (dt : Int) : DbStep st { st with now := st.now + dt }

/-- Empty store at boot time `t`. -/
def initDb (t : Int) : DbState := { jobs := [], fingerprints := [], nextId := 1, now := t }

/-- States the worker/ingestion protocol can reach. -/
def DbReachable (st : DbState) : Prop :=
  ∃ t, Relation.ReflTransGen DbStep (initDb t) st

/-- Ledger/job coherence: every completed job's fingerprint is resolved by the
ledger. -/
def completedImpliesLedger (st : DbState) : Prop :=
  ∀ j ∈ st.jobs, j.status = JobStatus.completed →
    ∃ r ∈ st.fingerprints, r.hash = j.fingerprint

/-- Auxiliary inductive invariant: ids are unique and below the counter, and
completed jobs are ledger-backed. -/
def DbInv (st : DbState) : Prop :=
  (∀ j ∈ st.jobs, j.id < st.nextId)
    ∧ (st.jobs.map JobRow.id).Nodup
    ∧ completedImpliesLedger st

/-- Appending one fresh non-completed row preserves the store invariant. -/
theorem dbInv_insertRow (st : DbState) (row : JobRow) (fps : List FingerprintRow)
    (hid : row.id = st.nextId) (hst : row.status ≠ JobStatus.completed)
    (hfps : ∀ r ∈ st.fingerprints, r ∈ fps)
    (h : DbInv st) :
    DbInv { st with jobs := st.jobs ++ [row], nextId := st.nextId + 1,
                    fingerprints := fps } := by
  obtain ⟨hbound, hnodup, hcomp⟩ := h
  refine ⟨?_, ?_, ?_⟩
  · intro j hj
    simp only [List.mem_append, List.mem_singleton] at hj
    show j.id < st.nextId + 1
    rcases hj with hj | hj
    · have := hbound j hj; omega
    · subst hj; simp only [hid]; omega
  · simp only [List.map_append, List.map_singleton]
    rw [List.nodup_append]
    refine ⟨hnodup, List.nodup_singleton _, ?_⟩
    intro a ha
    simp only [List.mem_singleton]
    rcases List.mem_map.mp ha with ⟨j, hj, hja⟩
    have := hbound j hj
    intro hcontra
    rw [hcontra, hid] at hja
    omega
  · intro j hj hjc
    simp only [List.mem_append, List.mem_singleton] at hj
    rcases hj with hj | hj
    · rcases hcomp j hj hjc with ⟨r, hr, hrh⟩
      exact ⟨r, hfps r hr, hrh⟩
    · subst hj; exact absurd hjc hst

/-- An id- and fingerprint-preserving row update that never produces a new
completed row preserves the store invariant. -/
theorem dbInv_mapRows (st : DbState) (f : JobRow → JobRow)
    (hid : ∀ j, (f j).id = j.id)
    (hnc : ∀ j ∈ st.jobs, (f j).status = JobStatus.completed → f j = j)
    (h : DbInv st) :
    DbInv { st with jobs := st.jobs.map f } := by
  obtain ⟨hbound, hnodup, hcomp⟩ := h
  have hmapid : (st.jobs.map f).map JobRow.id = st.jobs.map JobRow.id := by
    rw [List.map_map]
    apply List.map_congr_left
    intro j _
    exact hid j
  refine ⟨?_, ?_, ?_⟩
  · intro j hj
    rcases List.mem_map.mp hj with ⟨j0, hj0, hj0e⟩
    subst hj0e
    rw [hid]
    exact hbound j0 hj0
  · rw [hmapid]; exact hnodup
  · intro j hj hjc
    rcases List.mem_map.mp hj with ⟨j0, hj0, hj0e⟩
    subst hj0e
    have hfix := hnc j0 hj0 hjc
    rw [hfix] at hjc ⊢
    exact hcomp j0 hj0 hjc

/-- Members of the two lists with equal ids coincide when ids are unique. -/
theorem eq_of_mem_of_id_eq {st : DbState} (h : DbInv st)
    {j1 j2 : JobRow} (h1 : j1 ∈ st.jobs) (h2 : j2 ∈ st.jobs)
    (hid : j1.id = j2.id) : j1 = j2 := by
  obtain ⟨_, hnodup, _⟩ := h
  exact List.inj_on_of_nodup_map hnodup h1 h2 hid

/-- Bounds and uniqueness of ids survive any id-preserving row update. -/
theorem mapRows_ids (st : DbState) (f : JobRow → JobRow)
    (hid : ∀ j, (f j).id = j.id)
    (hb : ∀ j ∈ st.jobs, j.id < st.nextId)
    (hn : (st.jobs.map JobRow.id).Nodup) :
    (∀ j ∈ st.jobs.map f, j.id < st.nextId)
      ∧ ((st.jobs.map f).map JobRow.id).Nodup := by
  have hmapid : (st.jobs.map f).map JobRow.id = st.jobs.map JobRow.id := by
    rw [List.map_map]
    apply List.map_congr_left
    intro r _
    exact hid r
  constructor
  · intro j' hj'
    rcases List.mem_map.mp hj' with ⟨j0, hj0, hj0e⟩
    subst hj0e
    rw [hid]
    exact hb j0 hj0
  · rw [hmapid]
    exact hn

/-- One protocol step preserves the store invariant. -/
theorem dbStep_preserves_inv {st st' : DbState} (h : DbInv st) (hs : DbStep st st') :
    DbInv st' := by
  cases hs with
  | enqueue payload fp w =>
    unfold insertJobIfNotDuplicateTx
    cases hfind : findFingerprintStmt st fp w with
    | some row =>
      exact dbInv_insertRow st _ _ rfl (by simp) (fun r hr => hr) h
    | none =>
      cases hpend : findPendingJobByFingerprintStmt st fp w with
      | some j =>
        exact dbInv_insertRow st _ _ rfl (by simp) (fun r hr => hr) h
      | none =>
        exact dbInv_insertRow st _ _ rfl (by simp) (fun r hr => hr) h
  | claim =>
    unfold claimNextJobStmt
    cases hhead : ((st.jobs.filter
        (fun j => j.status == JobStatus.pending)).insertionSort jobLeR).head? with
    | none => exact h
    | some j =>
      apply dbInv_mapRows st _ (fun r => by by_cases hr : r.id = j.id <;> simp [hr]) ?_ h
      intro r _ hrc
      by_cases hr : r.id = j.id
      · simp [hr] at hrc
      · simp [hr]
  | completeFp j issueId ident analysis hj =>
    obtain ⟨hbound, hnodup, hcomp⟩ := h
    obtain ⟨fps, hst1, hsup, hledger⟩ :
        ∃ fps, insertFingerprintStmt st j.fingerprint issueId ident
            = { st with fingerprints := fps }
          ∧ (∀ r ∈ st.fingerprints, r ∈ fps)
          ∧ (∃ r ∈ fps, r.hash = j.fingerprint) := by
      unfold insertFingerprintStmt
      cases hany : st.fingerprints.any (fun r => r.hash == j.fingerprint) with
      | true =>
        rcases List.any_eq_true.mp hany with ⟨r, hr, hrh⟩
        exact ⟨st.fingerprints, by simp, fun r hr => hr, ⟨r, hr, by simpa using hrh⟩⟩
      | false =>
        refine ⟨st.fingerprints ++
            [{ hash := j.fingerprint, linear_issue_id := issueId,
               linear_identifier := ident, created_at := st.now }],
          by simp, ?_, ?_⟩
        · intro r hr
          exact List.mem_append.mpr (Or.inl hr)
        · exact ⟨_, List.mem_append.mpr (Or.inr (List.mem_singleton.mpr rfl)), rfl⟩
    unfold completeJobWithFingerprintTx markCompletedStmt
    rw [hst1]
    have hres := mapRows_ids st
      (fun r => if r.id = j.id then
          { r with status := JobStatus.completed, linear_issue_id := some issueId,
                   linear_identifier := some ident, analysis := some analysis,
                   processed_at := some st.now }
        else r)
      (fun r => by by_cases hrid : r.id = j.id <;> simp [hrid])
      hbound hnodup
    refine ⟨fun j' hj' => hres.1 j' hj', hres.2, ?_⟩
    intro r hr hrc
    rcases List.mem_map.mp hr with ⟨r0, hr0, hr0e⟩
    subst hr0e
    by_cases hrid : r0.id = j.id
    · have hr0j : r0 = j :=
        eq_of_mem_of_id_eq ⟨hbound, hnodup, hcomp⟩ hr0 hj hrid
      subst hr0j
      rcases hledger with ⟨r, hrm, hrh⟩
      exact ⟨r, hrm, by simp [hrid, hrh]⟩
    · simp only [hrid, ite_false, if_neg, not_false_iff] at hrc ⊢
      rcases hcomp r0 hr0 (by simpa [hrid] using hrc) with ⟨r, hrm, hrh⟩
      exact ⟨r, hsup r hrm, hrh⟩
  | failJob jobId err =>
    apply dbInv_mapRows st _ (fun r => by by_cases hr : r.id = jobId <;> simp [hr]) ?_ h
    intro r _ hrc
    by_cases hr : r.id = jobId
    · simp [hr] at hrc
    · simp [hr]
  | dupJob jobId ident =>
    apply dbInv_mapRows st _ (fun r => by by_cases hr : r.id = jobId <;> simp [hr]) ?_ h
    intro r _ hrc
    by_cases hr : r.id = jobId
    · simp [hr] at hrc
    · simp [hr]
  | tick dt =>
    exact h

/-- The empty store satisfies the invariant. -/
theorem dbInv_init (t : Int) : DbInv (initDb t) := by
  refine ⟨?_, by simp [initDb], ?_⟩ <;> intro j hj <;> simp [initDb] at hj

/-- C3: `completeJobWithFingerprint` performs both writes in one step: after
the transaction, the ledger resolves the fingerprint (inserted idempotently —
a pre-existing hash leaves the ledger unchanged, and no ledger row is ever
lost), the targeted job row carries status `'completed'`, the ticket
reference, the analysis and the processing timestamp, and every other job row
is untouched.  Because the transaction is the only step producing completed
jobs, every store state the worker protocol can reach keeps the ledger and
the jobs' completed states coherent: a completed job without its fingerprint
in the ledger is unreachable. -/
theorem completeJobWithFingerprint_atomic (st : DbState) (jobId : Nat)
    (fp issueId ident analysis : String) :
    ((∃ r ∈ (completeJobWithFingerprintTx st jobId fp issueId ident analysis).fingerprints,
        r.hash = fp)
      ∧ (∀ r ∈ st.fingerprints,
          r ∈ (completeJobWithFingerprintTx st jobId fp issueId ident analysis).fingerprints)
      ∧ (st.fingerprints.any (fun r => r.hash == fp) = true →
          (completeJobWithFingerprintTx st jobId fp issueId ident analysis).fingerprints
            = st.fingerprints)
      ∧ (∀ j ∈ st.jobs, j.id = jobId →
          { j with status := JobStatus.completed, linear_issue_id := some issueId,
                   linear_identifier := some ident, analysis := some analysis,
                   processed_at := some st.now }
            ∈ (completeJobWithFingerprintTx st jobId fp issueId ident analysis).jobs)
      ∧ (∀ j ∈ st.jobs, j.id ≠ jobId →
          j ∈ (completeJobWithFingerprintTx st jobId fp issueId ident analysis).jobs))
    ∧ (∀ s, DbReachable s → completedImpliesLedger s) := by
  constructor
  · have hjobs : (insertFingerprintStmt st fp issueId ident).jobs = st.jobs := by
      unfold insertFingerprintStmt
      split <;> rfl
    have hnow : (insertFingerprintStmt st fp issueId ident).now = st.now := by
      unfold insertFingerprintStmt
      split <;> rfl
    refine ⟨?_, ?_, ?_, ?_, ?_⟩
    · unfold completeJobWithFingerprintTx markCompletedStmt insertFingerprintStmt
      cases hany : st.fingerprints.any (fun r => r.hash == fp) with
      | true =>
        rcases List.any_eq_true.mp hany with ⟨r, hr, hrh⟩
        exact ⟨r, by simpa [hany] using hr, by simpa using hrh⟩
      | false =>
        refine ⟨{ hash := fp, linear_issue_id := issueId,
                  linear_identifier := ident, created_at := st.now }, ?_, rfl⟩
        simp [hany]
    · intro r hr
      unfold completeJobWithFingerprintTx markCompletedStmt insertFingerprintStmt
      split
      · exact hr
      · exact List.mem_append.mpr (Or.inl hr)
    · intro hany
      unfold completeJobWithFingerprintTx markCompletedStmt insertFingerprintStmt
      rw [if_pos hany]
    · intro j hj hid
      unfold completeJobWithFingerprintTx markCompletedStmt
      rw [hnow]
      refine List.mem_map.mpr ⟨j, by rw [hjobs]; exact hj, by rw [if_pos hid]⟩
    · intro j hj hid
      unfold completeJobWithFingerprintTx markCompletedStmt
      refine List.mem_map.mpr ⟨j, by rw [hjobs]; exact hj, by rw [if_neg hid]⟩
  · rintro s ⟨t, hreach⟩
    have hinv : DbInv s := by
      induction hreach with
      | refl => exact dbInv_init t
      | tail hsteps hstep ih => exact dbStep_preserves_inv ih hstep
    exact hinv.2.2

/-- Witness for C3 on a one-job store: completing the processing job marks it
completed and the ledger resolves its fingerprint. -/
theorem completeJobWithFingerprint_atomic_witness :
    { id := 1, payload := "p", fingerprint := "f",
      status := JobStatus.completed, error := none, analysis := some "a",
      linear_issue_id := some "iid", linear_identifier := some "ABC-1",
      created_at := 0, processed_at := some (5 : Int) }
      ∈ (completeJobWithFingerprintTx
          { jobs := [{ id := 1, payload := "p", fingerprint := "f",
                       status := JobStatus.processing, error := none, analysis := none,
                       linear_issue_id := none, linear_identifier := none,
                       created_at := 0, processed_at := none }],
            fingerprints := [], nextId := 2, now := 5 } 1 "f" "iid" "ABC-1" "a").jobs :=
  (completeJobWithFingerprint_atomic
    { jobs := [{ id := 1, payload := "p", fingerprint := "f",
                 status := JobStatus.processing, error := none, analysis := none,
                 linear_issue_id := none, linear_identifier := none,
                 created_at := 0, processed_at := none }],
      fingerprints := [], nextId := 2, now := 5 } 1 "f" "iid" "ABC-1" "a").1.2.2.2.1
    { id := 1, payload := "p", fingerprint := "f",
      status := JobStatus.processing, error := none, analysis := none,
      linear_issue_id := none, linear_identifier := none,
      created_at := 0, processed_at := none }
    (List.mem_singleton.mpr rfl) rfl

/-- Data-only event prefixes never settle, kill or clear the timer. -/
theorem runAnalyze_data_only (t : Int) :
    ∀ pre : List ProcEvent, (∀ e ∈ pre, ∃ ch, e = ProcEvent.data ch) →
      (runAnalyze t pre).settled = none
        ∧ (runAnalyze t pre).killed = false
        ∧ (runAnalyze t pre).timerCleared = false := by
  have H : ∀ (pre : List ProcEvent) (st : AnalyzeState),
      (∀ e ∈ pre, ∃ ch, e = ProcEvent.data ch) →
      (pre.foldl (analyzeStep t) st).settled = st.settled
        ∧ (pre.foldl (analyzeStep t) st).killed = st.killed
        ∧ (pre.foldl (analyzeStep t) st).timerCleared = st.timerCleared := by
    intro pre
    induction pre with
    | nil => intro st _; exact ⟨rfl, rfl, rfl⟩
    | cons e rest ih =>
      intro st hall
      rcases hall e (List.mem_cons_self e rest) with ⟨ch, he⟩
      subst he
      exact ih _ (fun e he => hall e (List.mem_cons_of_mem _ he))
  intro pre hpre
  exact H pre analyzeInit hpre

/-- C7: with a positive configured timeout, if the process has not closed by
the time the manual timer fires (the timer event preceding any `close`), the
orchestration kills the process (`SIGTERM`) and rejects with the typed
timeout error; a non-zero exit instead rejects with the execution error that
attaches the captured output; the two rejections are distinct, and neither
depends on the agent's own `--max-turns` budget, which does not occur in the
protocol state at all. -/
theorem analyze_timeout_protocol (t c : Int) (pre : List ProcEvent)
    (hpos : 0 < t) (hdata : ∀ e ∈ pre, ∃ ch, e = ProcEvent.data ch) (hc : c ≠ 0) :
    (runAnalyze t (pre ++ [ProcEvent.timeoutFire])).settled
        = some (.errTimeout ("Claude timed out after " ++ toString t ++ "ms"))
    ∧ (runAnalyze t (pre ++ [ProcEvent.timeoutFire])).killed = true
    ∧ (runAnalyze t (pre ++ [ProcEvent.close c])).settled
        = some (.errExec ("Claude exited with code " ++ toString c)
            (runAnalyze t pre).stream.fullOutput)
    ∧ (runAnalyze t (pre ++ [ProcEvent.timeoutFire])).settled
        ≠ (runAnalyze t (pre ++ [ProcEvent.close c])).settled := by
  obtain ⟨hsettled, hkilled, htimer⟩ := runAnalyze_data_only t pre hdata
  have hfold1 : runAnalyze t (pre ++ [ProcEvent.timeoutFire])
      = analyzeStep t (runAnalyze t pre) ProcEvent.timeoutFire := by
    unfold runAnalyze
    rw [List.foldl_append]
    rfl
  have hfold2 : runAnalyze t (pre ++ [ProcEvent.close c])
      = analyzeStep t (runAnalyze t pre) (ProcEvent.close c) := by
    unfold runAnalyze
    rw [List.foldl_append]
    rfl
  have h1 : (runAnalyze t (pre ++ [ProcEvent.timeoutFire])).settled
      = some (.errTimeout ("Claude timed out after " ++ toString t ++ "ms")) := by
    rw [hfold1]
    simp only [analyzeStep, htimer, Bool.not_false, and_true, hpos, if_true, ite_true]
    simp [settleOnce, hsettled, hpos]
  have h2 : (runAnalyze t (pre ++ [ProcEvent.timeoutFire])).killed = true := by
    rw [hfold1]
    simp [analyzeStep, htimer, hpos, settleOnce, hsettled]
  have h3 : (runAnalyze t (pre ++ [ProcEvent.close c])).settled
      = some (.errExec ("Claude exited with code " ++ toString c)
          (runAnalyze t pre).stream.fullOutput) := by
    rw [hfold2]
    simp [analyzeStep, hc, settleOnce, hsettled]
  refine ⟨h1, h2, h3, ?_⟩
  rw [h1, h3]
  intro hcontra
  injection hcontra with hcontra
  cases hcontra

/-- Witness for C7 with a 30-second timeout, one data chunk, exit code 1. -/
theorem analyze_timeout_protocol_witness :
    (runAnalyze 30000 [ProcEvent.data "x", ProcEvent.timeoutFire]).settled
        = some (.errTimeout "Claude timed out after 30000ms")
    ∧ (runAnalyze 30000 [ProcEvent.data "x", ProcEvent.close 1]).settled
        = some (.errExec "Claude exited with code 1" "x") := by
  have h := analyze_timeout_protocol 30000 1 [ProcEvent.data "x"] (by norm_num)
    (by intro e he; simp at he; exact ⟨"x", he⟩) (by norm_num)
  exact ⟨h.1, h.2.2.1⟩

/-- C10: the stripped volatile set includes the generic identifier keys `id`,
`uuid`, `eventId`, `event_id` and `issueId`, so setting, changing or removing
such a field — at any nesting depth, through objects and array elements
alike — never changes the fingerprint, and two payloads distinguished only by
such fields collide (final conjunct: a concrete collision). -/
theorem generic_id_fields_ignored (p : Json) (path : List PathStep) (k : String)
    (v : Json) (hk : k ∈ ["id", "uuid", "eventId", "event_id", "issueId"]) :
    k ∈ DYNAMIC_FIELDS
    ∧ generateFingerprint (setAtPath p path k v) = generateFingerprint p
    ∧ generateFingerprint (removeAtPath p path k) = generateFingerprint p
    ∧ generateFingerprint (.obj [("m", .str "x"), ("id", .num 1)])
        = generateFingerprint (.obj [("m", .str "x"), ("id", .num 2)]) := by
  have hdyn : k ∈ DYNAMIC_FIELDS := by
    simp only [List.mem_cons, List.not_mem_nil, or_false] at hk
    rcases hk with rfl | rfl | rfl | rfl | rfl <;> decide
  refine ⟨hdyn, ?_, ?_, by decide⟩
  · unfold generateFingerprint canonicalJson setAtPath
    rw [removeDynamicFields_editAt _ (removeDynamicFieldsList_setField hdyn v) path p]
  · unfold generateFingerprint canonicalJson removeAtPath
    rw [removeDynamicFields_editAt _ (removeDynamicFieldsList_removeField hdyn) path p]

/-- Witness for C10: overwriting a nested `eventId` inside an array element
leaves the fingerprint unchanged. -/
theorem generic_id_fields_ignored_witness :
    generateFingerprint
        (setAtPath (.obj [("events", .arr [.obj [("eventId", .str "e1"), ("m", .str "x")]])])
          [PathStep.key "events", PathStep.idx 0] "eventId" (.str "e2"))
      = generateFingerprint
          (.obj [("events", .arr [.obj [("eventId", .str "e1"), ("m", .str "x")]])]) :=
  (generic_id_fields_ignored
    (.obj [("events", .arr [.obj [("eventId", .str "e1"), ("m", .str "x")]])])
    [PathStep.key "events", PathStep.idx 0] "eventId" (.str "e2")
    (by decide)).2.1

/-- The hex digest always has 64 characters. -/
theorem sha256HexChars_length (msg : List Nat) : (sha256HexChars msg).length = 64 := by
  unfold sha256HexChars wordHex
  simp [List.length_append]

/-- C4: payloads that differ only in volatile-field values or in object key
order (the `FpEquiv` relation, covering both at every nesting depth) receive
identical digests; every digest has exactly 32 characters; the spec's
scenario payloads differing only in `timestamp` collide, and changing the
non-volatile `message` field changes the digest (the universal reading of the
last clause is collision-resistance of truncated SHA-256, attested here at
the concrete instance). -/
theorem fingerprint_determinism (p q : Json) (h : FpEquiv p q) :
    generateFingerprint p = generateFingerprint q
    ∧ (∀ r : Json, (generateFingerprint r).length = 32)
    ∧ generateFingerprint (.obj [("message", .str "X"), ("timestamp", .str "t1")])
        = generateFingerprint (.obj [("message", .str "X"), ("timestamp", .str "t2")])
    ∧ generateFingerprint (.obj [("message", .str "X"), ("timestamp", .str "t1")])
        ≠ generateFingerprint (.obj [("message", .str "Y"), ("timestamp", .str "t1")]) := by
  refine ⟨generateFingerprint_eq_of_fpEquiv h, ?_, by decide, by decide⟩
  intro r
  unfold generateFingerprint
  show ((sha256HexChars (utf8Bytes (canonicalJson r))).take 32).length = 32
  rw [List.length_take, sha256HexChars_length]
  rfl

/-- Witness for C4: the unit-test payload pair — same `message` and `stack`,
different `timestamp`/`requestId` values and different key order — collides. -/
theorem fingerprint_determinism_witness :
    generateFingerprint (.obj [("message", .str "M"), ("stack", .str "S"),
        ("timestamp", .str "t1"), ("requestId", .str "r1")])
      = generateFingerprint (.obj [("stack", .str "S"), ("message", .str "M"),
          ("timestamp", .str "t2"), ("requestId", .str "r2")]) := by
  have hEquiv : FpEquiv
      (.obj [("message", .str "M"), ("stack", .str "S"),
        ("timestamp", .str "t1"), ("requestId", .str "r1")])
      (.obj [("stack", .str "S"), ("message", .str "M"),
        ("timestamp", .str "t2"), ("requestId", .str "r2")]) := by
    apply FpEquiv.obj
    · decide
    · intro k v w hv hw hk
      simp only [List.mem_cons, List.not_mem_nil, or_false, Prod.mk.injEq] at hv hw
      rcases hv with ⟨rfl, rfl⟩ | ⟨rfl, rfl⟩ | ⟨rfl, rfl⟩ | ⟨rfl, rfl⟩ <;>
        rcases hw with ⟨hk2, rfl⟩ | ⟨hk2, rfl⟩ | ⟨hk2, rfl⟩ | ⟨hk2, rfl⟩ <;>
        first
          | exact FpEquiv.str _
          | exact absurd (by decide) hk
          | simp_all
  exact (fingerprint_determinism _ _ hEquiv).1

/-- C5 counterexample: the last result event's payload is text containing no
candidate, while the raw transcript holds a perfectly extractable
brace-balanced object (second and third conjuncts).  The claim's stage (c)
promises the transcript scan once stage (b) fails; the code instead confines
both fallback stages to the payload text and fails outright (first
conjunct) — the transcript is never consulted when a text payload exists. -/
theorem parseStreamOutput_skips_transcript :
    parseStreamOutput "\x7b\"category\":\"bug\",\"summary\":\"s\"\x7d"
        (some (.obj [("type", .str "result"), ("result", .str "no json here")]))
      = Except.error ExtractErr.noResult
    ∧ extractJsonFromText "\x7b\"category\":\"bug\",\"summary\":\"s\"\x7d"
      = Except.ok (.obj [("category", .str "bug"), ("summary", .str "s")])
    ∧ tryBalancedPatterns "\x7b\"category\":\"bug\",\"summary\":\"s\"\x7d" balancedPatterns
      = some (.obj [("category", .str "bug"), ("summary", .str "s")]) :=
  ⟨rfl, rfl, rfl⟩

/-- C5 (amended): extraction prefers the captured result event — an object
payload with truthy mandatory fields returns directly, a non-empty text
payload is mined by `extractJsonFromText` over that text alone — and the
whole transcript is mined only when no result payload usable that way was
captured; within `extractJsonFromText`, fenced blocks are tried in order,
skipping malformed blocks, before the brace-balanced patterns, and the typed
no-result error is raised only when both stages fail.  The final conjunct is
the unit-test scenario: one malformed and one valid fenced block yield the
valid one. -/
theorem parseStreamOutput_fallback_order :
    (∀ (fullOutput : String) (resFields cFields : List (String × Json)),
        jGet (.obj resFields) "result" = some (.obj cFields) →
        jsTruthyOpt (jGet (.obj cFields) "category") = true →
        jsTruthyOpt (jGet (.obj cFields) "summary") = true →
        parseStreamOutput fullOutput (some (.obj resFields)) = Except.ok (.obj cFields))
    ∧ (∀ (fullOutput : String) (resFields : List (String × Json)) (s : String),
        jGet (.obj resFields) "result" = some (.str s) → s ≠ "" →
        parseStreamOutput fullOutput (some (.obj resFields)) = extractJsonFromText s)
    ∧ (∀ fullOutput : String,
        parseStreamOutput fullOutput none = extractJsonFromText fullOutput)
    ∧ (∀ (text : String) (j : Json),
        firstValidFencedBlock (fencedBlocks text) = some j →
        extractJsonFromText text = Except.ok j)
    ∧ (∀ text : String,
        firstValidFencedBlock (fencedBlocks text) = none →
        tryBalancedPatterns text balancedPatterns = none →
        extractJsonFromText text = Except.error ExtractErr.noResult)
    ∧ (∀ (b : String) (rest : List String), jsonParse (jsTrim b) = none →
        firstValidFencedBlock (b :: rest) = firstValidFencedBlock rest)
    ∧ extractJsonFromText
        ("```json\n\x7b invalid json \x7d\n```\n\n```json\n\x7b\"category\":\"bug\",\"summary\":\"Valid analysis\"\x7d\n```")
      = Except.ok (.obj [("category", .str "bug"), ("summary", .str "Valid analysis")]) := by
  refine ⟨?_, ?_, ?_, ?_, ?_, ?_, rfl⟩
  · intro fullOutput resFields cFields hres hcat hsum
    simp only [parseStreamOutput]
    rw [hres]
    simp [jsTruthy, hcat, hsum]
  · intro fullOutput resFields s hres hs
    simp only [parseStreamOutput]
    rw [hres]
    simp [jsTruthy, hs]
  · intro fullOutput
    rfl
  · intro text j hj
    unfold extractJsonFromText
    rw [hj]
  · intro text hfenced hbal
    unfold extractJsonFromText
    rw [hfenced, hbal]
  · intro b rest hb
    conv_lhs => rw [firstValidFencedBlock]
    rw [hb]

/-- Witness for C5 (amended) at concrete inputs for the three staged routes. -/
theorem parseStreamOutput_fallback_order_witness :
    parseStreamOutput "zzz"
        (some (.obj [("result", .obj [("category", .str "c"), ("summary", .str "s")])]))
      = Except.ok (.obj [("category", .str "c"), ("summary", .str "s")])
    ∧ parseStreamOutput "zzz" (some (.obj [("result", .str "abc")]))
      = extractJsonFromText "abc" :=
  ⟨(parseStreamOutput_fallback_order).1 "zzz"
      [("result", .obj [("category", .str "c"), ("summary", .str "s")])]
      [("category", .str "c"), ("summary", .str "s")] rfl rfl rfl,
   (parseStreamOutput_fallback_order).2.1 "zzz" [("result", .str "abc")] "abc" rfl
      (by decide)⟩

/-! C6 apparatus: a grammar of brace-balanced text segments with string
literals, against which the quote/escape-tracking scanner is verified. -/

/-- Content of a string literal as the scanner sees it: any characters, with
quotes and backslashes occurring only under a backslash escape. -/
inductive SBody : List Char → Prop where
  | nil : SBody []
  | plain (c : Char) (cs : List Char) :
      c ≠ '"' → c ≠ '\\' → SBody cs → SBody (c :: cs)
  | esc (c : Char) (cs : List Char) : SBody cs → SBody ('\\' :: c :: cs)

/-- Text at a fixed brace depth: plain characters, whole string literals
(whose braces are invisible), and properly nested brace pairs. -/
inductive Items : List Char → Prop where
  | nil : Items []
  | plain (c : Char) (cs : List Char) :
      c ≠ Char.ofNat 123 → c ≠ Char.ofNat 125 → c ≠ '"' → Items cs → Items (c :: cs)
  | lit (s cs : List Char) : SBody s → Items cs → Items ('"' :: (s ++ '"' :: cs))
  | nest (body cs : List Char) : Items body → Items cs →
      Items (Char.ofNat 123 :: (body ++ Char.ofNat 125 :: cs))


/-- One-step unfolding of the scanner on a cons cell. -/
theorem scanBalanced_cons (c : Char) (cs : List Char) (depth : Int)
    (inString escape : Bool) (n : Nat) :
    scanBalanced (c :: cs) depth inString escape n
      = if escape then scanBalanced cs depth inString false (n + 1)
        else if c == '\\' && inString then scanBalanced cs depth inString true (n + 1)
        else if c == '"' then scanBalanced cs depth (!inString) escape (n + 1)
        else if !inString && c == Char.ofNat 123 then
          scanBalanced cs (depth + 1) inString escape (n + 1)
        else if !inString && c == Char.ofNat 125 then
          if depth - 1 = 0 then some (n + 1)
          else scanBalanced cs (depth - 1) inString escape (n + 1)
        else scanBalanced cs depth inString escape (n + 1) := rfl

/-- A non-special character outside strings is consumed without effect. -/
theorem scan_step_plain_outside {c : Char} (h1 : c ≠ Char.ofNat 123)
    (h2 : c ≠ Char.ofNat 125) (h3 : c ≠ '"') (cs : List Char) (depth : Int) (n : Nat) :
    scanBalanced (c :: cs) depth false false n = scanBalanced cs depth false false (n + 1) := by
  rw [scanBalanced_cons]
  simp [h1, h2, h3]

/-- A non-quote, non-backslash character inside a string is consumed. -/
theorem scan_step_plain_instr {c : Char} (h3 : c ≠ '"') (h4 : c ≠ '\\')
    (cs : List Char) (depth : Int) (n : Nat) :
    scanBalanced (c :: cs) depth true false n = scanBalanced cs depth true false (n + 1) := by
  rw [scanBalanced_cons]
  simp [h3, h4]

/-- A quote toggles the string state. -/
theorem scan_step_quote (cs : List Char) (depth : Int) (inString : Bool) (n : Nat) :
    scanBalanced ('"' :: cs) depth inString false n
      = scanBalanced cs depth (!inString) false (n + 1) := by
  rw [scanBalanced_cons]
  cases inString <;> simp

/-- A backslash inside a string arms the escape flag. -/
theorem scan_step_backslash_instr (cs : List Char) (depth : Int) (n : Nat) :
    scanBalanced ('\\' :: cs) depth true false n
      = scanBalanced cs depth true true (n + 1) := by
  rw [scanBalanced_cons]
  simp

/-- An armed escape consumes any character verbatim. -/
theorem scan_step_escape (c : Char) (cs : List Char) (depth : Int) (n : Nat) :
    scanBalanced (c :: cs) depth true true n
      = scanBalanced cs depth true false (n + 1) := by
  rw [scanBalanced_cons]
  simp

/-- An opening brace outside strings raises the depth. -/
theorem scan_step_open (cs : List Char) (depth : Int) (n : Nat) :
    scanBalanced (Char.ofNat 123 :: cs) depth false false n
      = scanBalanced cs (depth + 1) false false (n + 1) := by
  rw [scanBalanced_cons]
  simp

/-- A closing brace outside strings lowers the depth or answers. -/
theorem scan_step_close (cs : List Char) (depth : Int) (n : Nat) :
    scanBalanced (Char.ofNat 125 :: cs) depth false false n
      = if depth - 1 = 0 then some (n + 1)
        else scanBalanced cs (depth - 1) false false (n + 1) := by
  rw [scanBalanced_cons]
  simp

/-- The scanner passes over a string literal without touching the depth:
braces inside string values never affect the count. -/
theorem scan_through_string {s : List Char} (hs : SBody s) :
    ∀ (rest : List Char) (depth : Int) (n : Nat),
      scanBalanced (s ++ '"' :: rest) depth true false n
        = scanBalanced rest depth false false (n + s.length + 1) := by
  induction hs with
  | nil =>
    intro rest depth n
    rw [List.nil_append, scan_step_quote]
    simp
  | plain c cs hq hb _ ih =>
    intro rest depth n
    rw [List.cons_append, scan_step_plain_instr hq hb, ih rest depth (n + 1)]
    congr 1
    simp
    omega
  | esc c cs _ ih =>
    intro rest depth n
    rw [List.cons_append, List.cons_append, scan_step_backslash_instr,
      scan_step_escape, ih rest depth (n + 2)]
    congr 1
    simp
    omega

/-- The scanner passes over any balanced segment at positive depth without
returning, consuming exactly its length. -/
theorem scan_through_items {body : List Char} (hb : Items body) :
    ∀ (rest : List Char) (depth : Int) (n : Nat), 1 ≤ depth →
      scanBalanced (body ++ rest) depth false false n
        = scanBalanced rest depth false false (n + body.length) := by
  induction hb with
  | nil =>
    intro rest depth n _
    simp
  | plain c cs hob hcb hq _ ih =>
    intro rest depth n hd
    rw [List.cons_append, scan_step_plain_outside hob hcb hq, ih rest depth (n + 1) hd]
    congr 1
    simp
    omega
  | lit s cs hsb _ ih =>
    intro rest depth n hd
    have hassoc : ('"' :: (s ++ '"' :: cs)) ++ rest = '"' :: (s ++ '"' :: (cs ++ rest)) := by
      simp
    rw [hassoc, scan_step_quote]
    simp only [Bool.not_false]
    rw [scan_through_string hsb (cs ++ rest) depth (n + 1), ih rest depth _ hd]
    congr 1
    simp
    omega
  | nest body cs _ _ ihbody ihcs =>
    intro rest depth n hd
    have hassoc : (Char.ofNat 123 :: (body ++ Char.ofNat 125 :: cs)) ++ rest
        = Char.ofNat 123 :: (body ++ Char.ofNat 125 :: (cs ++ rest)) := by
      simp
    rw [hassoc, scan_step_open,
      ihbody (Char.ofNat 125 :: (cs ++ rest)) (depth + 1) (n + 1) (by omega),
      scan_step_close]
    rw [if_neg (by omega)]
    have : depth + 1 - 1 = depth := by omega
    rw [this, ihcs rest depth _ hd]
    congr 1
    simp
    omega

/-- On an opening brace followed by a balanced body, its closing brace and
anything after, the scan answers exactly the braced segment's length. -/
theorem scanBalanced_of_items {body : List Char} (rest : List Char) (h : Items body) :
    scanBalanced (Char.ofNat 123 :: (body ++ Char.ofNat 125 :: rest)) 0 false false 0
      = some (body.length + 2) := by
  rw [scan_step_open, scan_through_items h (Char.ofNat 125 :: rest) (0 + 1) 1 (by omega),
    scan_step_close]
  rw [if_pos (by omega)]
  congr 1
  omega

/-- Lists without quotes, backslashes or braces are valid string bodies. -/
theorem sbody_of_plain (s : List Char)
    (h : ∀ c ∈ s, c ≠ '"' ∧ c ≠ '\\') : SBody s := by
  induction s with
  | nil => exact SBody.nil
  | cons c cs ih =>
    have hc := h c (List.mem_cons_self c cs)
    exact SBody.plain c cs hc.1 hc.2 (ih (fun d hd => h d (List.mem_cons_of_mem _ hd)))

/-- Lists without braces or quotes are balanced segments. -/
theorem items_of_plain (s : List Char)
    (h : ∀ c ∈ s, c ≠ Char.ofNat 123 ∧ c ≠ Char.ofNat 125 ∧ c ≠ '"') : Items s := by
  induction s with
  | nil => exact Items.nil
  | cons c cs ih =>
    have hc := h c (List.mem_cons_self c cs)
    exact Items.plain c cs hc.1 hc.2.1 hc.2.2
      (ih (fun d hd => h d (List.mem_cons_of_mem _ hd)))

/-- C6: the brace-balanced fallback.  (1) For any text whose suffix at the
starting index is a brace-balanced segment (per the `Items` grammar, whose
string literals make embedded braces invisible) the scanner selects exactly
that segment and hands it to `JSON.parse`.  (2) A close brace inside a string
value does not end the scan (concrete).  (3) The stage accepts an object
missing the mandatory `summary` that the fenced-block stage refuses — fenced
extraction of the same candidate yields nothing while the full routine
returns it — strictly more permissive.  (4) If the braces never balance
before the end of the text, the stage fails, and with no other candidate the
routine raises the typed no-result error. -/
theorem extractBalancedJson_correct :
    (∀ (pre body rest : List Char), Items body →
      extractBalancedJson
          (String.mk (pre ++ Char.ofNat 123 :: (body ++ Char.ofNat 125 :: rest)))
          pre.length
        = jsonParse (String.mk (Char.ofNat 123 :: (body ++ [Char.ofNat 125]))))
    ∧ extractBalancedJson "\x7b\"category\":\"a\x7db\"\x7d tail" 0
        = some (.obj [("category", .str "a\x7db")])
    ∧ (firstValidFencedBlock
          (fencedBlocks "```json\n\x7b\"category\": \"bug\"\x7d\n```") = none
        ∧ extractJsonFromText "```json\n\x7b\"category\": \"bug\"\x7d\n```"
          = Except.ok (.obj [("category", .str "bug")]))
    ∧ (extractBalancedJson "\x7b\"category\": \"x\"" 0 = none
        ∧ extractJsonFromText "\x7b\"category\": \"x\"" = Except.error ExtractErr.noResult) := by
  refine ⟨?_, rfl, ⟨rfl, rfl⟩, ⟨rfl, rfl⟩⟩
  intro pre body rest h
  unfold extractBalancedJson
  have hdrop : (String.mk
      (pre ++ Char.ofNat 123 :: (body ++ Char.ofNat 125 :: rest))).data.drop pre.length
      = Char.ofNat 123 :: (body ++ Char.ofNat 125 :: rest) := by
    show (pre ++ Char.ofNat 123 :: (body ++ Char.ofNat 125 :: rest)).drop pre.length = _
    exact List.drop_left pre _
  rw [hdrop, scanBalanced_of_items rest h]
  have htake : (Char.ofNat 123 :: (body ++ Char.ofNat 125 :: rest)).take (body.length + 2)
      = Char.ofNat 123 :: (body ++ [Char.ofNat 125]) := by
    rw [show body.length + 2 = (body.length + 1) + 1 from rfl, List.take_succ_cons]
    congr 1
    rw [List.take_append]
    simp
  show jsonParse
      (String.mk ((Char.ofNat 123 :: (body ++ Char.ofNat 125 :: rest)).take (body.length + 2)))
    = jsonParse (String.mk (Char.ofNat 123 :: (body ++ [Char.ofNat 125])))
  rw [htake]

/-- Witness for C6's quantified conjunct: a balanced body containing one
string literal, embedded in surrounding text. -/
theorem extractBalancedJson_correct_witness :
    extractBalancedJson
        (String.mk ("xx".data ++ Char.ofNat 123 ::
          (("\"category\":1".data) ++ Char.ofNat 125 :: "yy".data))) 2
      = jsonParse (String.mk (Char.ofNat 123 :: ("\"category\":1".data ++ [Char.ofNat 125]))) := by
  have hs : SBody "category".data := sbody_of_plain _ (by decide)
  have hcs : Items ":1".data := items_of_plain _ (by decide)
  have hb : Items ("\"category\":1".data) := Items.lit "category".data ":1".data hs hcs
  exact (extractBalancedJson_correct).1 "xx".data "\"category\":1".data "yy".data hb
